import Mathlib

/-!
# Multipart form builder and image request assembler of go-openai

Shallow embedding of `internal/form_builder.go` (the `FormBuilder` interface and
`DefaultFormBuilder`) and of the multipart operations of `image.go`
(`CreateEditImage`, `CreateVariImage`).

Conventions of the embedding.

* A Go `string` is a Lean `String`; a Go `[]byte` and the contents of a byte sink are a
  `List Char`, one element per byte (`Char` is used as the byte alphabet).
* A Go `error` is a `GoError`; a method returning `error` returns `Option GoError`
  (`none` is `nil`) together with the state it leaves behind.
* Mutable objects (the `multipart.Writer`, the sink it writes to, the log of handle
  operations) are threaded explicitly.
* `*os.File` and `*multipart.FileHeader` values handed to the builder are non-nil; the only
  pointer tested against `nil` in the source, `ImageEditRequest.Mask`, is an `Option`.
* The functions of the Go standard library the source calls (`path.Base`, `strconv.Itoa`,
  `io.Copy`, `mime/multipart.Writer`) are transcribed from the standard library.
* The `context.Context` argument of the operations of `image.go` plays no part in the
  assembly of the body and is left out.
* The collaborators of `image.go` that live in other files of the package (`createFormBuilder`,
  `fullURL`, `newRequest`, `sendRequest`) are parameters, gathered in `Client`.
* The multipart reader used to state the round trip is a reference model; the repository
  contains no reader.
-/

namespace GoOpenAI

/-! ## Errors, byte streams and sinks -/

/-- A Go `error` value, identified by its message. -/
structure GoError where
  msg : String
deriving DecidableEq, Repr

/-- Contents of a `[]byte`. -/
abbrev Bytes := List Char

/-- An `io.Writer`: `Write p` on a sink in state `s` returns the error (if any) and the state
of the sink afterwards. A failing `Write` may have consumed part of `p`; that is visible only
in the new state. -/
structure IoWriter (σ : Type) where
  Write : Bytes → σ → Option GoError × σ

/-- An `io.Reader` seen from its consumer: the non-error results of successive `Read` calls
(`chunks`), followed by `io.EOF` (`err = none`) or by a read error. -/
structure IoReader where
  chunks : List Bytes
  err : Option GoError
deriving DecidableEq, Repr

/-- The loop of `io.Copy(dst, src)`: every chunk of positive length is written to `dst`;
the first write error stops the copy and is returned; when the source is exhausted its final
error (if it is not `io.EOF`) is returned. -/
def copyLoop {σ : Type} (write : Bytes → σ → Option GoError × σ) (final : Option GoError) :
    List Bytes → σ → Option GoError × σ
  | [], s => (final, s)
  | c :: cs, s =>
    if c.length > 0 then
      match write c s with
      | (some ew, s') => (some ew, s')
      | (none, s') => copyLoop write final cs s'
    else copyLoop write final cs s

/-- Go `io.Copy(dst, src)`, returning its error. -/
def ioCopy {σ : Type} (write : Bytes → σ → Option GoError × σ) (src : IoReader) (s : σ) :
    Option GoError × σ :=
  copyLoop write src.err src.chunks s

/-- An `*os.File` as the builder uses it: `Name()` and the bytes it yields when read. -/
structure OsFile where
  name : String
  stream : IoReader
deriving DecidableEq, Repr

/-- A `multipart.File` obtained from `FileHeader.Open`: a handle (identified by `id`) that can
be read and closed. -/
structure MultipartFile where
  id : Nat
  stream : IoReader
deriving DecidableEq, Repr

/-- Result of `fileHeader.Open()`. -/
inductive OpenResult where
  | failed (err : GoError)
  | opened (file : MultipartFile)
deriving DecidableEq, Repr

/-- A `*multipart.FileHeader`: the `Filename` field and what `Open()` returns. -/
structure FileHeader where
  Filename : String
  Open : OpenResult
deriving DecidableEq, Repr

/-- What happened to handles opened from upload descriptors. -/
inductive HandleEvent where
  | opened (id : Nat)
  | closed (id : Nat)
deriving DecidableEq, Repr

/-! ## Standard library: `path.Base` and `strconv.Itoa` -/

/-- The loop `for len(path) > 0 && path[len(path)-1] == '/' { path = path[0 : len(path)-1] }`,
run on the reversed path. -/
def dropLeadingSlashes : List Char → List Char
  | [] => []
  | c :: cs => if c = '/' then dropLeadingSlashes cs else c :: cs

/-- Strip trailing slashes, the first loop of `path.Base`. -/
def stripTrailingSlashes (p : List Char) : List Char :=
  (dropLeadingSlashes p.reverse).reverse

/-- Go `bytealg.LastIndexByteString(s, c)`: index of the last `c` in `s`, `none` for `-1`. -/
def lastIndexByte (s : List Char) (c : Char) : Option Nat :=
  match s with
  | [] => none
  | x :: xs =>
    match lastIndexByte xs c with
    | some i => some (i + 1)
    | none => if x = c then some 0 else none

/-- Go `path.Base`. -/
def Base (path : String) : String :=
  if path = "" then "."
  else
    let p := stripTrailingSlashes path.data
    let p := match lastIndexByte p '/' with
      | some i => p.drop (i + 1)
      | none => p
    if p = [] then "/" else String.mk p

/-- The ASCII digit of `d < 10`. -/
def digitChar (d : Nat) : Char := Char.ofNat (48 + d)

/-- Decimal digits of `u` pushed in front of `acc`, least significant digit first, as the
digit loop of `strconv.formatBits` does; `fuel` bounds the number of digits. -/
def formatDecimal : Nat → Nat → List Char → List Char
  | 0, _, acc => acc
  | fuel + 1, u, acc =>
    if u < 10 then digitChar u :: acc
    else formatDecimal fuel (u / 10) (digitChar (u % 10) :: acc)

/-- Go `strconv.Itoa`: base 10 text of an integer, with a leading `-` when negative. -/
def Itoa (i : Int) : String :=
  let u := i.natAbs
  let ds := formatDecimal (u + 1) u []
  String.mk (if i < 0 then '-' :: ds else ds)

/-! ## Standard library: `mime/multipart.Writer` -/

/-- The `part` of `mime/multipart`: `closed` and the last write error `we`. -/
structure Part where
  closed : Bool
  we : Option GoError
deriving DecidableEq, Repr

/-- The `multipart.Writer` fields other than the sink: the boundary and `lastpart`. -/
structure MultipartWriter where
  boundary : String
  lastpart : Option Part
deriving DecidableEq, Repr

/-- Everything a `DefaultFormBuilder` call can change: the `multipart.Writer` it wraps, the
sink that writer writes to, and the log of handle operations. -/
structure BuilderState (σ : Type) where
  writer : MultipartWriter
  sink : σ
  handles : List HandleEvent

/-- The replacer `quoteEscaper` of `mime/multipart`,
`strings.NewReplacer("\\", "\\\\", "\"", "\\\"", "\r", "%0D", "\n", "%0A")`: backslash and double
quote get a backslash in front, a carriage return becomes `%0D` and a line feed `%0A`. -/
def escapeQuotes : List Char → List Char
  | [] => []
  | c :: cs =>
    if c = '\\' then '\\' :: '\\' :: escapeQuotes cs
    else if c = '"' then '\\' :: '"' :: escapeQuotes cs
    else if c = '\r' then '%' :: '0' :: 'D' :: escapeQuotes cs
    else if c = '\n' then '%' :: '0' :: 'A' :: escapeQuotes cs
    else c :: escapeQuotes cs

/-- Header block of a part made by `Writer.CreateFormField`. -/
def fieldHeader (fieldname : String) : Bytes :=
  "Content-Disposition: form-data; name=\"".data ++ escapeQuotes fieldname.data ++ "\"\r\n".data

/-- Header block of a part made by `Writer.CreateFormFile`: the two headers in sorted key
order. -/
def fileHeader (fieldname filename : String) : Bytes :=
  "Content-Disposition: form-data; name=\"".data ++ escapeQuotes fieldname.data ++
    "\"; filename=\"".data ++ escapeQuotes filename.data ++
    "\"\r\nContent-Type: application/octet-stream\r\n".data

/-- Go `Writer.CreatePart` for an already rendered header block: closes the previous part
(returning its pending write error), writes the boundary line, the headers and the blank
line in one `Write`, and installs a new `lastpart`. -/
def createPart {σ : Type} (w : IoWriter σ) (headers : Bytes) (st : BuilderState σ) :
    Option GoError × BuilderState σ :=
  match st.writer.lastpart with
  | some p =>
    match p.we with
    | some e => (some e, { st with writer := { st.writer with lastpart := some { p with closed := true } } })
    | none =>
      match w.Write ("\r\n--".data ++ st.writer.boundary.data ++ "\r\n".data ++ headers ++ "\r\n".data) st.sink with
      | (some e, s') =>
        (some e, { st with sink := s', writer := { st.writer with lastpart := some { p with closed := true } } })
      | (none, s') =>
        (none, { st with sink := s', writer := { st.writer with lastpart := some { closed := false, we := none } } })
  | none =>
    match w.Write ("--".data ++ st.writer.boundary.data ++ "\r\n".data ++ headers ++ "\r\n".data) st.sink with
    | (some e, s') => (some e, { st with sink := s' })
    | (none, s') =>
      (none, { st with sink := s', writer := { st.writer with lastpart := some { closed := false, we := none } } })

/-- Go `(*part).Write` on the part returned by the last `CreatePart`, which is `lastpart`
(the branch without a `lastpart` is not reached after a successful `createPart`). -/
def partWrite {σ : Type} (w : IoWriter σ) (d : Bytes) (st : BuilderState σ) :
    Option GoError × BuilderState σ :=
  match st.writer.lastpart with
  | none => (some ⟨"multipart: can't write to finished part"⟩, st)
  | some p =>
    if p.closed then (some ⟨"multipart: can't write to finished part"⟩, st)
    else
      match w.Write d st.sink with
      | (some e, s') =>
        (some e, { st with sink := s', writer := { st.writer with lastpart := some { p with we := some e } } })
      | (none, s') => (none, { st with sink := s' })

/-- Go `Writer.CreateFormFile(fieldname, filename)`. -/
def writerCreateFormFile {σ : Type} (w : IoWriter σ) (fieldname filename : String)
    (st : BuilderState σ) : Option GoError × BuilderState σ :=
  createPart w (fileHeader fieldname filename) st

/-- Go `Writer.WriteField(fieldname, value)`. -/
def writerWriteField {σ : Type} (w : IoWriter σ) (fieldname value : String)
    (st : BuilderState σ) : Option GoError × BuilderState σ :=
  match createPart w (fieldHeader fieldname) st with
  | (some e, st') => (some e, st')
  | (none, st') => partWrite w value.data st'

/-- Go `Writer.Close`: closes the last part and writes the closing boundary line. -/
def writerClose {σ : Type} (w : IoWriter σ) (st : BuilderState σ) :
    Option GoError × BuilderState σ :=
  match st.writer.lastpart with
  | some p =>
    match p.we with
    | some e => (some e, { st with writer := { st.writer with lastpart := some { p with closed := true } } })
    | none =>
      match w.Write ("\r\n--".data ++ st.writer.boundary.data ++ "--\r\n".data) st.sink with
      | (r, s') => (r, { st with sink := s', writer := { st.writer with lastpart := none } })
  | none =>
    match w.Write ("\r\n--".data ++ st.writer.boundary.data ++ "--\r\n".data) st.sink with
    | (r, s') => (r, { st with sink := s' })

/-- The boundary line `CreatePart` writes in front of the headers: `--boundary` and a line
break, preceded by a line break when a part was written before. -/
def separator (w : MultipartWriter) : Bytes :=
  match w.lastpart with
  | none => "--".data ++ w.boundary.data ++ "\r\n".data
  | some _ => "\r\n--".data ++ w.boundary.data ++ "\r\n".data

/-- Go `Writer.FormDataContentType`; the boundary is quoted when it contains one of the
`tspecials` of RFC 2045 (parentheses, angle brackets, `@`, comma, semicolon, colon, backslash,
double quote, slash, square brackets, `?`, `=`) or a space. -/
def writerFormDataContentType (w : MultipartWriter) : String :=
  if w.boundary.data.any (fun c => "()<>@,;:\\\"/[]?= ".data.contains c) then
    "multipart/form-data; boundary=\"" ++ w.boundary ++ "\""
  else "multipart/form-data; boundary=" ++ w.boundary

/-! ## `internal/form_builder.go` -/

/-- Go `NewFormBuilder(body)`: `multipart.NewWriter(body)` picks the boundary, taken as a
parameter here. -/
def NewFormBuilder {σ : Type} (boundary : String) (body : σ) : BuilderState σ :=
  { writer := { boundary := boundary, lastpart := none }, sink := body, handles := [] }

/-- The unexported `createFormFile(fieldname, r, filename)`. -/
def createFormFile {σ : Type} (w : IoWriter σ) (fieldname : String) (r : IoReader)
    (filename : String) (st : BuilderState σ) : Option GoError × BuilderState σ :=
  if filename = "" then (some ⟨"filename cannot be empty"⟩, st)
  else
    match writerCreateFormFile w fieldname filename st with
    | (some err, st') => (some err, st')
    | (none, st') =>
      match ioCopy (partWrite w) r st' with
      | (some err, st'') => (some err, st'')
      | (none, st'') => (none, st'')

/-- The unexported `createFormFileHeader(fieldname, fileHeader)`. The deferred
`file.Close()` runs on every return after a successful `Open`. -/
def createFormFileHeader {σ : Type} (w : IoWriter σ) (fieldname : String)
    (fh : FileHeader) (st : BuilderState σ) : Option GoError × BuilderState σ :=
  match fh.Open with
  | .failed err => (some err, st)
  | .opened file =>
    let st := { st with handles := st.handles ++ [HandleEvent.opened file.id] }
    let deferred := fun (r : Option GoError × BuilderState σ) =>
      (r.1, { r.2 with handles := r.2.handles ++ [HandleEvent.closed file.id] })
    match writerCreateFormFile w fieldname fh.Filename st with
    | (some err, st') => deferred (some err, st')
    | (none, st') =>
      match ioCopy (partWrite w) file.stream st' with
      | (some err, st'') => deferred (some err, st'')
      | (none, st'') => deferred (none, st'')

/-- Method `DefaultFormBuilder.CreateFormFile`. -/
def DefaultFormBuilder.CreateFormFile {σ : Type} (w : IoWriter σ) (fieldname : String)
    (file : OsFile) (st : BuilderState σ) : Option GoError × BuilderState σ :=
  createFormFile w fieldname file.stream file.name st

/-- Method `DefaultFormBuilder.CreateFormFileHeader`. -/
def DefaultFormBuilder.CreateFormFileHeader {σ : Type} (w : IoWriter σ) (fieldname : String)
    (fh : FileHeader) (st : BuilderState σ) : Option GoError × BuilderState σ :=
  createFormFileHeader w fieldname fh st

/-- Method `DefaultFormBuilder.CreateFormFileReader`. -/
def DefaultFormBuilder.CreateFormFileReader {σ : Type} (w : IoWriter σ) (fieldname : String)
    (r : IoReader) (filename : String) (st : BuilderState σ) :
    Option GoError × BuilderState σ :=
  createFormFile w fieldname r (Base filename) st

/-- Method `DefaultFormBuilder.WriteField`. -/
def DefaultFormBuilder.WriteField {σ : Type} (w : IoWriter σ) (fieldname value : String)
    (st : BuilderState σ) : Option GoError × BuilderState σ :=
  writerWriteField w fieldname value st

/-- Method `DefaultFormBuilder.Close`. -/
def DefaultFormBuilder.Close {σ : Type} (w : IoWriter σ) (st : BuilderState σ) :
    Option GoError × BuilderState σ :=
  writerClose w st

/-- Method `DefaultFormBuilder.FormDataContentType`. -/
def DefaultFormBuilder.FormDataContentType {σ : Type} (st : BuilderState σ) : String :=
  writerFormDataContentType st.writer

/-- A `bytes.Buffer` used as a sink: `Write` appends and never fails. -/
def bufferWriter : IoWriter Bytes where
  Write := fun p buf => (none, buf ++ p)

/-! ## The `FormBuilder` interface and the collaborators of `image.go` -/

/-- A computation of `image.go` over a world `ω`: it ends with a value or returns early with
an error, and leaves a world behind in both cases. -/
def Act (ω α : Type) : Type := ω → Except GoError α × ω

/-- Sequencing with early return: when `x` returns an error, the rest is skipped. -/
def Act.andThen {ω α β : Type} (x : Act ω α) (f : α → Act ω β) : Act ω β := fun w =>
  match x w with
  | (Except.ok a, w') => f a w'
  | (Except.error e, w') => (Except.error e, w')

instance instMonadAct {ω : Type} : Monad (Act ω) where
  pure a := fun w => (Except.ok a, w)
  bind := Act.andThen

/-- The pattern `if err = m(...); err != nil { return }`: run a method returning `error` and
return early when the error is not `nil`. -/
def call {ω : Type} (m : ω → Option GoError × ω) : Act ω Unit := fun w =>
  match m w with
  | (none, w') => (Except.ok (), w')
  | (some err, w') => (Except.error err, w')

/-- The interface `FormBuilder`. The five methods that return `error` may change the world;
`FormDataContentType` only reads it. -/
structure FormBuilder (ω : Type) where
  CreateFormFile : String → OsFile → ω → Option GoError × ω
  CreateFormFileHeader : String → FileHeader → ω → Option GoError × ω
  CreateFormFileReader : String → IoReader → String → ω → Option GoError × ω
  WriteField : String → String → ω → Option GoError × ω
  Close : ω → Option GoError × ω
  FormDataContentType : ω → String

/-- The production implementer of `FormBuilder`: `DefaultFormBuilder` over a sink. -/
def defaultFormBuilder {σ : Type} (w : IoWriter σ) : FormBuilder (BuilderState σ) where
  CreateFormFile := DefaultFormBuilder.CreateFormFile w
  CreateFormFileHeader := DefaultFormBuilder.CreateFormFileHeader w
  CreateFormFileReader := DefaultFormBuilder.CreateFormFileReader w
  WriteField := DefaultFormBuilder.WriteField w
  Close := DefaultFormBuilder.Close w
  FormDataContentType := DefaultFormBuilder.FormDataContentType

/-- Struct `ImageResponseDataInner`. -/
structure ImageResponseDataInner where
  URL : String
  B64JSON : String
  RevisedPrompt : String
deriving DecidableEq, Repr

/-- Struct `ImageResponse`, as far as `image.go` is concerned (the usage record and the HTTP
header are filled by the transport and passed through). -/
structure ImageResponse where
  Created : Int
  Data : List ImageResponseDataInner
deriving DecidableEq, Repr

/-- The request built by `c.newRequest`: method, URL, body and content type. -/
structure HttpRequest where
  method : String
  url : String
  body : Bytes
  contentType : String
deriving DecidableEq, Repr

/-- The parts of `Client` that `image.go` uses and that live in other files:
`createFormBuilder` (the builder bound to the request body), the contents of that body buffer,
`fullURL` (with the optional model of `withModel`), `newRequest` and `sendRequest`. -/
structure Client (ω : Type) where
  createFormBuilder : FormBuilder ω
  body : ω → Bytes
  fullURL : String → Option String → String
  newRequest : String → String → Bytes → String → Act ω HttpRequest
  sendRequest : HttpRequest → Act ω ImageResponse

/-- Struct `ImageEditRequest`. -/
structure ImageEditRequest where
  Image : List FileHeader
  Prompt : String
  Background : String
  Mask : Option FileHeader
  Model : String
  N : Int
  Quality : String
  ResponseFormat : String
  Size : String
  User : String
deriving DecidableEq, Repr

/-- Struct `ImageVariRequest`. -/
structure ImageVariRequest where
  Image : OsFile
  Model : String
  N : Int
  Size : String
  ResponseFormat : String
deriving DecidableEq, Repr

/-! ## `image.go` -/

/-- The tail shared by both operations: `c.newRequest(ctx, http.MethodPost, url,
withBody(body), withContentType(builder.FormDataContentType()))` followed by
`c.sendRequest(req, &response)`, each returning early on error. -/
def transport {ω : Type} (c : Client ω) (url : String) : Act ω ImageResponse := do
  let req ← fun w =>
    c.newRequest "POST" url (c.body w) (c.createFormBuilder.FormDataContentType w) w
  c.sendRequest req

/-- Go `Client.CreateEditImage`, started in the world that holds the empty body buffer and the
builder made by `c.createFormBuilder(body)`. Every `call` is one
`if err = builder.M(...); err != nil { return }`. -/
def CreateEditImage {ω : Type} (c : Client ω) (request : ImageEditRequest) :
    Act ω ImageResponse := do
  let builder := c.createFormBuilder
  call (builder.WriteField "model" request.Model)
  (if request.Image.length > 0 then
    (if h : request.Image.length = 1 then
      call (builder.CreateFormFileHeader "image" (request.Image.get ⟨0, by omega⟩))
    else
      request.Image.forM (fun image => call (builder.CreateFormFileHeader "image[]" image)))
  else pure ())
  call (builder.WriteField "prompt" request.Prompt)
  (if request.Background ≠ "" then
    call (builder.WriteField "background" request.Background)
  else pure ())
  (match request.Mask with
  | some mask => call (builder.CreateFormFileHeader "mask" mask)
  | none => pure ())
  (if request.N ≠ 0 then
    call (builder.WriteField "n" (Itoa request.N))
  else pure ())
  (if request.Quality ≠ "" then
    call (builder.WriteField "quality" request.Quality)
  else pure ())
  (if request.ResponseFormat ≠ "" then
    call (builder.WriteField "response_format" request.ResponseFormat)
  else pure ())
  (if request.Size ≠ "" then
    call (builder.WriteField "size" request.Size)
  else pure ())
  (if request.User ≠ "" then
    call (builder.WriteField "user" request.User)
  else pure ())
  call builder.Close
  transport c (c.fullURL "/images/edits" none)

/-- Go `Client.CreateVariImage`. -/
def CreateVariImage {ω : Type} (c : Client ω) (request : ImageVariRequest) :
    Act ω ImageResponse := do
  let builder := c.createFormBuilder
  call (builder.CreateFormFile "image" request.Image)
  call (builder.WriteField "n" (Itoa request.N))
  call (builder.WriteField "size" request.Size)
  call (builder.WriteField "response_format" request.ResponseFormat)
  call builder.Close
  transport c (c.fullURL "/images/variations" (some request.Model))

/-! ## A recording test double -/

/-- One call of a `FormBuilder` method that returns `error`. -/
inductive Call where
  | CreateFormFile (fieldname : String) (file : OsFile)
  | CreateFormFileHeader (fieldname : String) (fh : FileHeader)
  | CreateFormFileReader (fieldname : String) (r : IoReader) (filename : String)
  | WriteField (fieldname value : String)
  | Close
deriving DecidableEq, Repr

/-- Something the assembler did to a collaborator: a builder call with the error it returned,
or a request handed to the transport. -/
inductive Event where
  | builder (c : Call) (result : Option GoError)
  | newRequest (method url : String) (body : Bytes) (contentType : String)
  | sendRequest (req : HttpRequest)
deriving DecidableEq, Repr

/-- Run a builder method and append the call and its result to the log. -/
def logged {ω : Type} (c : Call) (m : ω → Option GoError × ω) :
    ω × List Event → Option GoError × (ω × List Event) := fun wl =>
  ((m wl.1).1, ((m wl.1).2, wl.2 ++ [Event.builder c (m wl.1).1]))

/-- Run a transport action after appending an event to the log. -/
def loggedAct {ω α : Type} (e : Event) (x : Act ω α) : Act (ω × List Event) α := fun wl =>
  ((x wl.1).1, ((x wl.1).2, wl.2 ++ [e]))

/-- The client `c` with every collaborator call recorded, in order, next to the world. -/
def Client.recording {ω : Type} (c : Client ω) : Client (ω × List Event) where
  createFormBuilder :=
    { CreateFormFile := fun n f => logged (Call.CreateFormFile n f) (c.createFormBuilder.CreateFormFile n f)
      CreateFormFileHeader := fun n fh =>
        logged (Call.CreateFormFileHeader n fh) (c.createFormBuilder.CreateFormFileHeader n fh)
      CreateFormFileReader := fun n r fname =>
        logged (Call.CreateFormFileReader n r fname) (c.createFormBuilder.CreateFormFileReader n r fname)
      WriteField := fun n v => logged (Call.WriteField n v) (c.createFormBuilder.WriteField n v)
      Close := logged Call.Close c.createFormBuilder.Close
      FormDataContentType := fun wl => c.createFormBuilder.FormDataContentType wl.1 }
  body := fun wl => c.body wl.1
  fullURL := c.fullURL
  newRequest := fun method url body ct =>
    loggedAct (Event.newRequest method url body ct) (c.newRequest method url body ct)
  sendRequest := fun req => loggedAct (Event.sendRequest req) (c.sendRequest req)

/-- The builder calls of a log, in order. -/
def builderCalls : List Event → List Call
  | [] => []
  | Event.builder c _ :: es => c :: builderCalls es
  | _ :: es => builderCalls es

/-- The results of the builder calls of a log, in order. -/
def builderResults : List Event → List (Option GoError)
  | [] => []
  | Event.builder _ r :: es => r :: builderResults es
  | _ :: es => builderResults es

/-- Whether an event is a request handed to the transport. -/
def Event.isTransport : Event → Bool
  | Event.builder _ _ => false
  | _ => true

/-- The log of collaborator calls made by `CreateEditImage`. -/
def editTrace {ω : Type} (c : Client ω) (request : ImageEditRequest) (w : ω) : List Event :=
  (CreateEditImage c.recording request (w, [])).2.2

/-- The log of collaborator calls made by `CreateVariImage`. -/
def variTrace {ω : Type} (c : Client ω) (request : ImageVariRequest) (w : ω) : List Event :=
  (CreateVariImage c.recording request (w, [])).2.2

/-! ## Call sequences -/

/-- Make one recorded call on a builder. -/
def perform {ω : Type} (b : FormBuilder ω) : Call → ω → Option GoError × ω
  | Call.CreateFormFile n f => b.CreateFormFile n f
  | Call.CreateFormFileHeader n fh => b.CreateFormFileHeader n fh
  | Call.CreateFormFileReader n r fname => b.CreateFormFileReader n r fname
  | Call.WriteField n v => b.WriteField n v
  | Call.Close => b.Close

/-- Make the calls of a list in order, returning early at the first error. -/
def exec {ω : Type} (b : FormBuilder ω) : List Call → Act ω Unit
  | [] => pure ()
  | c :: cs => call (perform b c) >>= fun _ => exec b cs

/-- The results of the calls of a list made in order up to and including the first one that
fails, and the world left behind. -/
def runCalls {ω : Type} (b : FormBuilder ω) : List Call → ω → List (Option GoError) × ω
  | [], w => ([], w)
  | c :: cs, w =>
    match perform b c w with
    | (none, w') => (none :: (runCalls b cs w').1, (runCalls b cs w').2)
    | (some e, w') => ([some e], w')

/-- The first error in a list of results. -/
def firstError : List (Option GoError) → Option GoError
  | [] => none
  | none :: rs => firstError rs
  | some e :: _ => some e

/-- What the recording client logs for `transport c url` started in world `w`. -/
def transportLog {ω : Type} (c : Client ω) (url : String) (w : ω) : List Event :=
  match c.newRequest "POST" url (c.body w) (c.createFormBuilder.FormDataContentType w) w with
  | (Except.ok req, _) =>
    [Event.newRequest "POST" url (c.body w) (c.createFormBuilder.FormDataContentType w),
      Event.sendRequest req]
  | (Except.error _, _) =>
    [Event.newRequest "POST" url (c.body w) (c.createFormBuilder.FormDataContentType w)]

/-- The field name of the part a call writes (`Close` writes no part). -/
def Call.fieldname : Call → Option String
  | Call.CreateFormFile n _ => some n
  | Call.CreateFormFileHeader n _ => some n
  | Call.CreateFormFileReader n _ _ => some n
  | Call.WriteField n _ => some n
  | Call.Close => none

/-- The calls of a list that write a part with the given field name. -/
def partsNamed (name : String) (calls : List Call) : List Call :=
  calls.filter (fun c => decide (c.fieldname = some name))

/-! ## The layouts stated by the specification -/

/-- The image parts of the edit operation as the specification words them: nothing for no
file, one part `image` for exactly one file, one part `image[]` per file for more. -/
def imageParts : List FileHeader → List Call
  | [] => []
  | [image] => [Call.CreateFormFileHeader "image" image]
  | images => images.map (Call.CreateFormFileHeader "image[]")

/-- The fixed-order, presence-gated layout of the edit operation as the specification words
it. -/
def editLayout (r : ImageEditRequest) : List Call :=
  [Call.WriteField "model" r.Model] ++ imageParts r.Image ++ [Call.WriteField "prompt" r.Prompt] ++
    (if r.Background ≠ "" then [Call.WriteField "background" r.Background] else []) ++
    (match r.Mask with
      | some mask => [Call.CreateFormFileHeader "mask" mask]
      | none => []) ++
    (if r.N ≠ 0 then [Call.WriteField "n" (Itoa r.N)] else []) ++
    (if r.Quality ≠ "" then [Call.WriteField "quality" r.Quality] else []) ++
    (if r.ResponseFormat ≠ "" then [Call.WriteField "response_format" r.ResponseFormat] else []) ++
    (if r.Size ≠ "" then [Call.WriteField "size" r.Size] else []) ++
    (if r.User ≠ "" then [Call.WriteField "user" r.User] else []) ++
    [Call.Close]

/-- The layout of the variation operation as the specification words it. -/
def variLayout (r : ImageVariRequest) : List Call :=
  [Call.CreateFormFile "image" r.Image, Call.WriteField "n" (Itoa r.N),
    Call.WriteField "size" r.Size, Call.WriteField "response_format" r.ResponseFormat, Call.Close]

/-- Value of a string of ASCII digits read as a base 10 numeral; `none` when a character is
not a digit. -/
def parseDigits : List Char → Nat → Option Nat
  | [], acc => some acc
  | c :: cs, acc =>
    if 48 ≤ c.toNat ∧ c.toNat ≤ 57 then parseDigits cs (acc * 10 + (c.toNat - 48)) else none

/-- A decimal integer read back from text: an optional `-`, then at least one digit. -/
def parseDecimal (s : String) : Option Int :=
  match s.data with
  | [] => none
  | c :: cs =>
    if c = '-' then
      (if cs = [] then none
      else
        match parseDigits cs 0 with
        | some n => some (-(Int.ofNat n))
        | none => none)
    else
      match parseDigits (c :: cs) 0 with
      | some n => some (Int.ofNat n)
      | none => none

/-! ## Parts as written and as read -/

/-- One part as handed to the multipart writer: the field name, the filename given to
`Writer.CreateFormFile` (`none` for a part made by `Writer.CreateFormField`), and the
content. -/
structure WrittenPart where
  name : String
  filename : Option String
  content : Bytes
deriving DecidableEq, Repr

/-- One part as the reader of Go's `mime/multipart` reports it: `Part.FormName()`,
`Part.FileName()` (empty when the part has no filename) and the body. -/
structure ReadPart where
  name : String
  filename : String
  content : Bytes
deriving DecidableEq, Repr

/-- The part a successful builder call hands to the multipart writer. `Close` writes no
part. -/
def Call.written : Call → Option WrittenPart
  | Call.WriteField n v => some { name := n, filename := none, content := v.data }
  | Call.CreateFormFile n f =>
    some { name := n, filename := some f.name, content := f.stream.chunks.flatten }
  | Call.CreateFormFileHeader n fh =>
    match fh.Open with
    | OpenResult.opened file =>
      some { name := n, filename := some fh.Filename, content := file.stream.chunks.flatten }
    | OpenResult.failed _ => none
  | Call.CreateFormFileReader n r fname =>
    some { name := n, filename := some (Base fname), content := r.chunks.flatten }
  | Call.Close => none

/-- A written part read back with its filename unchanged. -/
def WrittenPart.asWritten (p : WrittenPart) : ReadPart :=
  { name := p.name
    filename := match p.filename with
      | some f => f
      | none => ""
    content := p.content }

/-- A written part as Go's reader reports it: `Part.FileName` passes a non-empty filename
through `filepath.Base` (which is `path.Base` where the separator is `/`). -/
def WrittenPart.reported (p : WrittenPart) : ReadPart :=
  { name := p.name
    filename := match p.filename with
      | some f => if f = "" then "" else Base f
      | none => ""
    content := p.content }

/-- The sink of a fresh `DefaultFormBuilder` over an in-memory buffer after the given calls
and one `Close`. -/
def bodyAfter (boundary : String) (calls : List Call) : Bytes :=
  (runCalls (defaultFormBuilder bufferWriter) (calls ++ [Call.Close])
    (NewFormBuilder boundary [])).2.sink

/-- Whether the given calls and the final `Close` all return `nil` on a fresh
`DefaultFormBuilder` over an in-memory buffer. -/
def allSucceed (boundary : String) (calls : List Call) : Prop :=
  ∀ r ∈ (runCalls (defaultFormBuilder bufferWriter) (calls ++ [Call.Close])
    (NewFormBuilder boundary [])).1, r = none

instance instDecidableAllSucceed (boundary : String) (calls : List Call) :
    Decidable (allSucceed boundary calls) := by
  unfold allSucceed
  exact inferInstance

/-! ## A model of the reader of `mime/multipart`

Transcribed from `Reader.NextPart`, `scanUntilBoundary`, `matchAfterPrefix`,
`Part.FormName` and `Part.FileName` of Go's `mime/multipart`, from `ReadMIMEHeader` of
`net/textproto` and from `ParseMediaType` of `mime`, with these restrictions: a header line
has the form `Key: value`; a part must carry a `Content-Disposition: form-data` header whose
parameters are quoted strings, among them `name`; a first boundary line that ends in a bare
line feed (which switches Go's reader to line-feed mode) is not recognised. -/

/-- The rest of `s` after its beginning `lit`, when `s` begins with `lit`. -/
def expect : List Char → List Char → Option (List Char)
  | [], s => some s
  | _ :: _, [] => none
  | l :: ls, c :: cs => if l = c then expect ls cs else none

/-- Split at the first occurrence of `lit`: what is before it and what is after it. -/
def splitAtLit (lit : List Char) : List Char → Option (List Char × List Char)
  | [] =>
    match expect lit [] with
    | some r => some ([], r)
    | none => none
  | c :: cs =>
    match expect lit (c :: cs) with
    | some r => some ([], r)
    | none =>
      match splitAtLit lit cs with
      | some (a, b) => some (c :: a, b)
      | none => none

/-- The `tspecials` of RFC 2045, after which a backslash is an escape. -/
def isTSpecial (c : Char) : Bool := "()<>@,;:\\\"/[]?=".data.contains c

/-- Read a quoted string after its opening quote, as `consumeValue` of Go's `mime` does: a
backslash in front of a `tspecial` is dropped, any other backslash is kept, a line break is an
error; returns the value and what follows the closing quote. -/
def unquote : Nat → List Char → Option (List Char × List Char)
  | 0, _ => none
  | _ + 1, [] => none
  | fuel + 1, c :: cs =>
    if c = '"' then some ([], cs)
    else if c = '\\' then
      match cs with
      | d :: ds =>
        if isTSpecial d then
          match unquote fuel ds with
          | some (v, rest) => some (d :: v, rest)
          | none => none
        else
          match unquote fuel (d :: ds) with
          | some (v, rest) => some ('\\' :: v, rest)
          | none => none
      | [] => none
    else if c = '\r' ∨ c = '\n' then none
    else
      match unquote fuel cs with
      | some (v, rest) => some (c :: v, rest)
      | none => none

/-- Read the parameters `; key="value"` of a header value. -/
def readParams : Nat → List Char → Option (List (String × String))
  | 0, _ => none
  | fuel + 1, s =>
    if s = [] then some []
    else
      match expect "; ".data s with
      | none => none
      | some s1 =>
        match splitAtLit "=\"".data s1 with
        | none => none
        | some (key, s2) =>
          match unquote (s2.length + 1) s2 with
          | none => none
          | some (value, s3) =>
            match readParams fuel s3 with
            | none => none
            | some ps => some ((String.mk key, String.mk value) :: ps)

/-- Go `validHeaderValueByte`: horizontal tab, and everything from the space on except
DEL. -/
def validHeaderByte (c : Char) : Bool := c = '\t' ∨ (32 ≤ c.toNat ∧ c.toNat ≠ 127)

/-- Read header lines up to the blank line; returns the headers and what follows the blank
line. A line with a byte that is not allowed in a header is an error. -/
def readHeaders : Nat → Bytes → Option (List (String × Bytes) × Bytes)
  | 0, _ => none
  | fuel + 1, s =>
    match expect "\r\n".data s with
    | some rest => some ([], rest)
    | none =>
      match splitAtLit "\r\n".data s with
      | none => none
      | some (line, rest) =>
        if line.all validHeaderByte then
          match splitAtLit ": ".data line with
          | none => none
          | some (key, value) =>
            match readHeaders fuel rest with
            | none => none
            | some (hs, body) => some ((String.mk key, value) :: hs, body)
        else none

/-- Go `matchAfterPrefix` at the end of the input: whether what follows a candidate
`--boundary` makes it a boundary, namely a space, a tab, a carriage return, a line feed, two
dashes, or nothing at all. -/
def matchAfter : Bytes → Bool
  | [] => true
  | c :: rest =>
    if c = ' ' ∨ c = '\t' ∨ c = '\r' ∨ c = '\n' then true
    else if c = '-' then
      match rest with
      | d :: _ => decide (d = '-')
      | [] => false
    else false

/-- The search loop of `scanUntilBoundary` for the delimiter `lit` (line break, two dashes,
boundary): the body runs up to the first occurrence of `lit` that `matchAfter` accepts; an
occurrence that is not accepted belongs to the body and the search goes on behind it. Returns
the body and what follows the delimiter. -/
def scanBody (lit : Bytes) : Nat → Bytes → Option (Bytes × Bytes)
  | 0, _ => none
  | fuel + 1, s =>
    match expect lit s with
    | some rest =>
      if matchAfter rest then some ([], rest)
      else
        match scanBody lit fuel rest with
        | some (b, a) => some (lit ++ b, a)
        | none => none
    | none =>
      match s with
      | [] => none
      | c :: cs =>
        match scanBody lit fuel cs with
        | some (b, a) => some (c :: b, a)
        | none => none

/-- Read the body of a part as `scanUntilBoundary` does: at the very beginning of the body
the dash-boundary alone is a candidate, afterwards the delimiter is. -/
def readBody (boundary : Bytes) (s : Bytes) : Option (Bytes × Bytes) :=
  match expect ("--".data ++ boundary) s with
  | some rest =>
    if matchAfter rest then some ([], rest)
    else
      match scanBody ("\r\n--".data ++ boundary) (rest.length + 1) rest with
      | some (b, a) => some ("--".data ++ boundary ++ b, a)
      | none => none
  | none => scanBody ("\r\n--".data ++ boundary) (s.length + 1) s

/-- Go `Part.FileName` on the parsed parameters: empty when there is no `filename` or an empty
one, otherwise `filepath.Base` of it. -/
def fileNameOf (params : List (String × String)) : String :=
  match params.lookup "filename" with
  | some f => if f = "" then "" else Base f
  | none => ""

/-- Read one `form-data` part that starts after a boundary line; returns the part and what
follows the dash-boundary that ends its body. -/
def readPart (boundary : Bytes) (s : Bytes) : Option (ReadPart × Bytes) :=
  match readHeaders (s.length + 1) s with
  | none => none
  | some (hs, body) =>
    match hs.lookup "Content-Disposition" with
    | none => none
    | some cd =>
      match expect "form-data".data cd with
      | none => none
      | some ps =>
        match readParams (ps.length + 1) ps with
        | none => none
        | some params =>
          match params.lookup "name" with
          | none => none
          | some name =>
            match readBody boundary body with
            | none => none
            | some (content, rest) =>
              some ({ name := name, filename := fileNameOf params, content := content }, rest)

/-- Go `skipLWSPChar`: drop leading spaces and tabs. -/
def skipLWSP : Bytes → Bytes
  | [] => []
  | c :: cs => if c = ' ' ∨ c = '\t' then skipLWSP cs else c :: cs

/-- What a line that begins with the dash-boundary is. -/
inductive BoundaryLine where
  | delimiter (next : Bytes)
  | final
  | other
deriving DecidableEq, Repr

/-- Classify what follows a dash-boundary at the beginning of a line, as
`isBoundaryDelimiterLine` and `isFinalBoundary` do: spaces and tabs and a line break make a
boundary line, after which the next part begins; two dashes followed by spaces and tabs and
then a line break or the end of the input make the closing line. -/
def afterBoundary (rest : Bytes) : BoundaryLine :=
  match expect "\r\n".data (skipLWSP rest) with
  | some next => BoundaryLine.delimiter next
  | none =>
    match expect "--".data rest with
    | none => BoundaryLine.other
    | some r2 =>
      if skipLWSP r2 = [] ∨ (expect "\r\n".data (skipLWSP r2)).isSome then BoundaryLine.final
      else BoundaryLine.other

/-- Read parts until the closing line, as successive calls of `NextPart` do. -/
def readParts (boundary : Bytes) : Nat → Bytes → Option (List ReadPart)
  | 0, _ => none
  | fuel + 1, s =>
    match readPart boundary s with
    | none => none
    | some (p, rest) =>
      match afterBoundary rest with
      | BoundaryLine.delimiter next =>
        match readParts boundary fuel next with
        | some ps => some (p :: ps)
        | none => none
      | BoundaryLine.final => some [p]
      | BoundaryLine.other => none

/-- The first call of `NextPart`: skip the preamble line by line up to the first boundary
line, then read the parts; a closing line met first gives no part. -/
def readPreamble (boundary : Bytes) : Nat → Bytes → Option (List ReadPart)
  | 0, _ => none
  | fuel + 1, s =>
    match
      (match expect ("--".data ++ boundary) s with
        | some rest => afterBoundary rest
        | none => BoundaryLine.other) with
    | BoundaryLine.delimiter next => readParts boundary (next.length + 1) next
    | BoundaryLine.final => some []
    | BoundaryLine.other =>
      match splitAtLit "\n".data s with
      | some (_, rest) => readPreamble boundary fuel rest
      | none => none

/-- Read a whole multipart body with the given boundary. -/
def readForm (boundary : String) (body : Bytes) : Option (List ReadPart) :=
  readPreamble boundary.data (body.length + 1) body

/-! ## The wire format, part by part -/

/-- The parameters of the `Content-Disposition` header the writer renders for a part. -/
def paramsText (p : WrittenPart) : Bytes :=
  "; name=\"".data ++ escapeQuotes p.name.data ++ "\"".data ++
    (match p.filename with
      | some f => "; filename=\"".data ++ escapeQuotes f.data ++ "\"".data
      | none => [])

/-- The header block the writer renders for a part: `fileHeader` when it has a filename,
`fieldHeader` otherwise. -/
def partHeader (p : WrittenPart) : Bytes :=
  match p.filename with
  | some f => fileHeader p.name f
  | none => fieldHeader p.name

/-- Headers, blank line and content of a part. -/
def partBlock (p : WrittenPart) : Bytes := partHeader p ++ "\r\n".data ++ p.content

/-- What follows the first boundary line of a body with at least one part: every part is
followed by a delimiter, the last one by the closing delimiter. -/
def blocks (boundary : Bytes) : List WrittenPart → Bytes
  | [] => []
  | [p] => partBlock p ++ "\r\n--".data ++ boundary ++ "--\r\n".data
  | p :: q :: ps =>
    partBlock p ++ "\r\n--".data ++ boundary ++ "\r\n".data ++ blocks boundary (q :: ps)

/-- What the writer appends to the sink for a list of parts: before each part a boundary
line, which starts with a line break unless the part is the first one of a fresh writer. -/
def streamed (boundary : Bytes) : Bool → List WrittenPart → Bytes
  | _, [] => []
  | fresh, p :: ps =>
    (if fresh then "--".data else "\r\n--".data) ++ boundary ++ "\r\n".data ++ partBlock p ++
      streamed boundary false ps

/-- The body of a form with the given parts. -/
def wire (boundary : String) : List WrittenPart → Bytes
  | [] => "\r\n--".data ++ boundary.data ++ "--\r\n".data
  | p :: ps => "--".data ++ boundary.data ++ "\r\n".data ++ blocks boundary.data (p :: ps)

/-- Whether no occurrence of `lit` in `s` is followed by what `matchAfter` accepts, the end of
`s` counting as followed by a line break. -/
def delimiterFree (lit : Bytes) : Bytes → Bool
  | [] => true
  | c :: cs =>
    (match expect lit (c :: cs ++ "\r\n".data) with
      | some rest => !matchAfter rest
      | none => true) && delimiterFree lit cs

/-- The side conditions under which a part is read back: its name and filename are made of
bytes allowed in a header line (so they contain no line break), and its content holds no
boundary, that is, no dash-boundary at its very beginning and no delimiter anywhere that is
followed by a space, a tab, a line break, two dashes or the end of the content. -/
def WrittenPart.safe (boundary : String) (p : WrittenPart) : Prop :=
  p.name.data.all validHeaderByte = true ∧
  (match p.filename with
    | some f => f.data.all validHeaderByte
    | none => true) = true ∧
  delimiterFree ("\r\n--".data ++ boundary.data) ("\r\n".data ++ p.content) = true

instance instDecidableSafe (boundary : String) (p : WrittenPart) :
    Decidable (p.safe boundary) := by
  unfold WrittenPart.safe
  exact inferInstance

/-! ## Sample clients and requests -/

/-- A sink with room for a fixed number of bytes: a `Write` that does not fit stores what fits
and fails. -/
def limitedWriter : IoWriter (Bytes × Nat) where
  Write := fun p s =>
    if p.length ≤ s.2 then (none, (s.1 ++ p, s.2 - p.length))
    else (some ⟨"short write"⟩, (s.1 ++ p.take s.2, 0))

/-- A client whose builder is a `DefaultFormBuilder` on an in-memory buffer and whose
transport accepts every request. -/
def bufferClient : Client (BuilderState Bytes) where
  createFormBuilder := defaultFormBuilder bufferWriter
  body := fun st => st.sink
  fullURL := fun suffix _ => "https://api.openai.com/v1" ++ suffix
  newRequest := fun method url body ct w => (Except.ok ⟨method, url, body, ct⟩, w)
  sendRequest := fun _ w => (Except.ok ⟨0, []⟩, w)

/-- A client whose builder is a `DefaultFormBuilder` on a sink with limited room. -/
def limitedClient : Client (BuilderState (Bytes × Nat)) where
  createFormBuilder := defaultFormBuilder limitedWriter
  body := fun st => st.sink.1
  fullURL := fun suffix _ => "https://api.openai.com/v1" ++ suffix
  newRequest := fun method url body ct w => (Except.ok ⟨method, url, body, ct⟩, w)
  sendRequest := fun _ w => (Except.ok ⟨0, []⟩, w)

/-- An upload descriptor that opens successfully as handle `id` with the given content. -/
def upload (filename : String) (id : Nat) (content : String) : FileHeader :=
  { Filename := filename, Open := OpenResult.opened { id := id, stream := { chunks := [content.data], err := none } } }

/-- An edit request with two images and no mask. -/
def twoImageRequest : ImageEditRequest :=
  { Image := [upload "a.png" 1 "AA", upload "b.png" 2 "BB"], Prompt := "a cat", Background := "",
    Mask := none, Model := "gpt-image-1", N := 2, Quality := "", ResponseFormat := "",
    Size := "1024x1024", User := "" }

/-- An edit request with one image and no mask. -/
def oneImageRequest : ImageEditRequest :=
  { Image := [upload "a.png" 1 "AA"], Prompt := "a cat", Background := "",
    Mask := none, Model := "gpt-image-1", N := 0, Quality := "", ResponseFormat := "",
    Size := "", User := "" }

/-- A variation request with every scalar at its zero value. -/
def zeroVariRequest : ImageVariRequest :=
  { Image := { name := "cat.png", stream := { chunks := ["PNG".data], err := none } },
    Model := "", N := 0, Size := "", ResponseFormat := "" }

/-- A scalar value that contains a delimiter for the boundary `B` followed by the headers of a
further field. -/
def embeddedDelimiterValue : String :=
  "x\r\n--B\r\nContent-Disposition: form-data; name=\"b\"\r\n\r\ny"

/-- One field whose value embeds a delimiter. -/
def oneFieldCalls : List Call := [Call.WriteField "a" embeddedDelimiterValue]

/-- Two plain fields. -/
def twoFieldCalls : List Call := [Call.WriteField "a" "x", Call.WriteField "b" "y"]

/-- A field with a quote and a backslash in its name, a stream with a directory in its name,
a file handle, an upload descriptor and an empty field. -/
def mixedCalls : List Call :=
  [Call.WriteField "a\"q\\" "x",
    Call.CreateFormFileReader "f" { chunks := ["he".data, "llo".data], err := none } "d/e.png",
    Call.CreateFormFile "g" { name := "/tmp/cat.png", stream := { chunks := ["PNG".data], err := none } },
    Call.CreateFormFileHeader "image" (upload "a.png" 1 "AA"),
    Call.WriteField "b" ""]

/-- One file handle whose name has a directory. -/
def pathNamedFileCalls : List Call :=
  [Call.CreateFormFile "g" { name := "/tmp/cat.png", stream := { chunks := ["PNG".data], err := none } }]

/-- One field whose name has a line feed. -/
def lineFeedNameCalls : List Call := [Call.WriteField "a\nb" "x"]

/-- One field whose name has the control character with code 1. -/
def controlNameCalls : List Call := [Call.WriteField "\x01" "x"]
/-! ## Sequencing lemmas -/

theorem Act.bind_apply {ω α β : Type} (x : Act ω α) (f : α → Act ω β) (w : ω) :
    (x >>= f) w = (match x w with
      | (Except.ok a, w') => f a w'
      | (Except.error e, w') => (Except.error e, w')) := rfl

theorem Act.pure_bind {ω α β : Type} (a : α) (f : α → Act ω β) : (pure a >>= f) = f a := rfl

theorem Act.bind_pure_unit {ω : Type} (x : Act ω Unit) : (x >>= fun _ => pure ()) = x := by
  funext w
  rw [Act.bind_apply]
  rcases h : x w with ⟨r, w'⟩
  cases r <;> rfl

theorem Act.bind_assoc {ω α β γ : Type} (x : Act ω α) (f : α → Act ω β) (g : β → Act ω γ) :
    (x >>= f >>= g) = (x >>= fun a => f a >>= g) := by
  funext w
  rw [Act.bind_apply, Act.bind_apply, Act.bind_apply]
  rcases h : x w with ⟨r, w'⟩
  cases r <;> rfl

theorem exec_append {ω : Type} (b : FormBuilder ω) (l₁ l₂ : List Call) :
    exec b (l₁ ++ l₂) = (exec b l₁ >>= fun _ => exec b l₂) := by
  induction l₁ with
  | nil => rfl
  | cons c cs ih =>
    show (call (perform b c) >>= fun _ => exec b (cs ++ l₂)) = _
    rw [ih]
    exact (Act.bind_assoc _ _ _).symm

theorem exec_single {ω : Type} (b : FormBuilder ω) (c : Call) :
    exec b [c] = call (perform b c) := Act.bind_pure_unit _

theorem exec_nil {ω : Type} (b : FormBuilder ω) : exec b [] = pure () := rfl

theorem forM_eq_exec {ω : Type} (b : FormBuilder ω) (f : FileHeader → Call) (l : List FileHeader) :
    l.forM (fun image => call (perform b (f image))) = exec b (l.map f) := by
  induction l with
  | nil => rfl
  | cons x xs ih =>
    show (call (perform b (f x)) >>= fun _ => xs.forM _) = (call (perform b (f x)) >>= fun _ => exec b (xs.map f))
    rw [ih]

theorem exec_ite {ω : Type} (b : FormBuilder ω) (p : Prop) [Decidable p] (x : Call) :
    exec b (if p then [x] else []) = (if p then call (perform b x) else pure ()) := by
  split
  · exact exec_single b x
  · rfl

theorem exec_imageParts {ω : Type} (b : FormBuilder ω) (l : List FileHeader) :
    exec b (imageParts l) =
      (if l.length > 0 then
        (if h : l.length = 1 then
          call (b.CreateFormFileHeader "image" (l.get ⟨0, by omega⟩))
        else l.forM (fun image => call (b.CreateFormFileHeader "image[]" image)))
      else pure ()) := by
  match l with
  | [] => rfl
  | [x] => exact exec_single b _
  | x :: y :: t =>
    have h : ¬ (x :: y :: t).length = 1 := by simp
    rw [if_pos (by simp), dif_neg h]
    exact (forM_eq_exec b (Call.CreateFormFileHeader "image[]") (x :: y :: t)).symm

theorem CreateEditImage_eq {ω : Type} (c : Client ω) (r : ImageEditRequest) :
    CreateEditImage c r =
      (exec c.createFormBuilder (editLayout r) >>= fun _ =>
        transport c (c.fullURL "/images/edits" none)) := by
  unfold CreateEditImage editLayout
  simp only [exec_append, exec_single, Act.bind_assoc, exec_ite, exec_imageParts]
  cases r.Mask <;> first | rfl | (simp only [exec_single]; rfl)

theorem CreateVariImage_eq {ω : Type} (c : Client ω) (r : ImageVariRequest) :
    CreateVariImage c r =
      (exec c.createFormBuilder (variLayout r) >>= fun _ =>
        transport c (c.fullURL "/images/variations" (some r.Model))) := by
  unfold CreateVariImage variLayout exec exec exec exec exec exec
  simp only [Act.bind_assoc]
  rfl

theorem exec_eq_runCalls {ω : Type} (b : FormBuilder ω) (calls : List Call) (w : ω) :
    exec b calls w =
      ((match firstError (runCalls b calls w).1 with
        | none => Except.ok ()
        | some e => Except.error e), (runCalls b calls w).2) := by
  induction calls generalizing w with
  | nil => rfl
  | cons c cs ih =>
    show (call (perform b c) >>= fun _ => exec b cs) w = _
    rw [Act.bind_apply]
    unfold call runCalls
    rcases h : perform b c w with ⟨r, w'⟩
    cases r with
    | none => simpa [firstError] using ih w'
    | some e => simp [firstError]

theorem perform_recording {ω : Type} (c : Client ω) (x : Call) :
    perform c.recording.createFormBuilder x = logged x (perform c.createFormBuilder x) := by
  cases x <;> rfl

theorem runCalls_recording {ω : Type} (c : Client ω) (calls : List Call) (w : ω)
    (log : List Event) :
    runCalls c.recording.createFormBuilder calls (w, log) =
      ((runCalls c.createFormBuilder calls w).1,
        ((runCalls c.createFormBuilder calls w).2,
          log ++ List.zipWith Event.builder calls (runCalls c.createFormBuilder calls w).1)) := by
  induction calls generalizing w log with
  | nil => simp [runCalls]
  | cons x xs ih =>
    unfold runCalls
    rw [perform_recording]
    unfold logged
    rcases h : perform c.createFormBuilder x w with ⟨r, w'⟩
    cases r with
    | none => simp [ih]
    | some e => simp

theorem transport_recording {ω : Type} (c : Client ω) (url : String) (w : ω)
    (log : List Event) :
    transport c.recording url (w, log) =
      ((transport c url w).1, ((transport c url w).2, log ++ transportLog c url w)) := by
  unfold transport transportLog
  rw [Act.bind_apply, Act.bind_apply]
  simp only [Client.recording, loggedAct]
  rcases h : c.newRequest "POST" url (c.body w) (c.createFormBuilder.FormDataContentType w) w
    with ⟨r, w'⟩
  cases r with
  | ok a => simp
  | error e => simp

/-- The run of a script followed by the transport, on the recording client. -/
theorem script_recording {ω : Type} (c : Client ω) (layout : List Call) (url : String) (w : ω) :
    (exec c.recording.createFormBuilder layout >>= fun _ => transport c.recording url) (w, []) =
      (match firstError (runCalls c.createFormBuilder layout w).1 with
        | some e =>
          (Except.error e, ((runCalls c.createFormBuilder layout w).2,
            List.zipWith Event.builder layout (runCalls c.createFormBuilder layout w).1))
        | none =>
          ((transport c url (runCalls c.createFormBuilder layout w).2).1,
            ((transport c url (runCalls c.createFormBuilder layout w).2).2,
              List.zipWith Event.builder layout (runCalls c.createFormBuilder layout w).1 ++
                transportLog c url (runCalls c.createFormBuilder layout w).2))) := by
  rw [Act.bind_apply, exec_eq_runCalls, runCalls_recording]
  cases h : firstError (runCalls c.createFormBuilder layout w).1 with
  | none => simp [transport_recording]
  | some e => simp

/-- The run of a script followed by the transport, on any client. -/
theorem script_plain {ω : Type} (c : Client ω) (layout : List Call) (url : String) (w : ω) :
    (exec c.createFormBuilder layout >>= fun _ => transport c url) w =
      (match firstError (runCalls c.createFormBuilder layout w).1 with
        | some e => (Except.error e, (runCalls c.createFormBuilder layout w).2)
        | none => transport c url (runCalls c.createFormBuilder layout w).2) := by
  rw [Act.bind_apply, exec_eq_runCalls]
  cases h : firstError (runCalls c.createFormBuilder layout w).1 with
  | none => simp
  | some e => simp

/-- Results of a run: all `nil` for the whole list, or `nil`s followed by one error. -/
theorem runCalls_shape {ω : Type} (b : FormBuilder ω) (calls : List Call) (w : ω) :
    ((runCalls b calls w).1 = List.replicate calls.length none) ∨
      ∃ k e, k < calls.length ∧ (runCalls b calls w).1 = List.replicate k none ++ [some e] := by
  induction calls generalizing w with
  | nil => left; rfl
  | cons c cs ih =>
    unfold runCalls
    rcases h : perform b c w with ⟨r, w'⟩
    cases r with
    | none =>
      rcases ih w' with h1 | ⟨k, e, hk, h1⟩
      · left; simp [h1, List.replicate_succ]
      · right; exact ⟨k + 1, e, by simpa using hk, by simp [h1, List.replicate_succ]⟩
    | some e => right; exact ⟨0, e, by simp, by simp⟩

theorem firstError_replicate (k : Nat) (rest : List (Option GoError)) :
    firstError (List.replicate k none ++ rest) = firstError rest := by
  induction k with
  | zero => rfl
  | succ k ih => simpa [List.replicate_succ, firstError] using ih

theorem builderCalls_zipWith (l : List Call) (rs : List (Option GoError)) :
    builderCalls (List.zipWith Event.builder l rs) = l.take rs.length := by
  induction l generalizing rs with
  | nil => simp [builderCalls]
  | cons x xs ih =>
    cases rs with
    | nil => simp [builderCalls]
    | cons r rs => simp [builderCalls, ih]

theorem builderResults_zipWith (l : List Call) (rs : List (Option GoError)) :
    builderResults (List.zipWith Event.builder l rs) = rs.take l.length := by
  induction l generalizing rs with
  | nil => simp [builderResults]
  | cons x xs ih =>
    cases rs with
    | nil => simp [builderResults]
    | cons r rs => simp [builderResults, ih]

theorem builderCalls_append (a b : List Event) :
    builderCalls (a ++ b) = builderCalls a ++ builderCalls b := by
  induction a with
  | nil => rfl
  | cons e es ih => cases e <;> simp [builderCalls, ih]

theorem builderResults_append (a b : List Event) :
    builderResults (a ++ b) = builderResults a ++ builderResults b := by
  induction a with
  | nil => rfl
  | cons e es ih => cases e <;> simp [builderResults, ih]

theorem builderCalls_transportLog {ω : Type} (c : Client ω) (url : String) (w : ω) :
    builderCalls (transportLog c url w) = [] := by
  unfold transportLog
  split <;> rfl

theorem builderResults_transportLog {ω : Type} (c : Client ω) (url : String) (w : ω) :
    builderResults (transportLog c url w) = [] := by
  unfold transportLog
  split <;> rfl

theorem zipWith_builder_take (l : List Call) (rs : List (Option GoError)) :
    List.zipWith Event.builder l rs = List.zipWith Event.builder (l.take rs.length) rs := by
  induction l generalizing rs with
  | nil => simp
  | cons x xs ih =>
    cases rs with
    | nil => simp
    | cons r rs => simp [← ih]

/-- The two possible outcomes of a script run on the recording client: either every call
returned `nil` and the whole list was called, or the calls stop at the first error, which is
returned, and nothing reaches the transport. -/
theorem script_outcome {ω : Type} (c : Client ω) (L : List Call) (url : String) (w : ω) :
    (builderResults ((exec c.recording.createFormBuilder L >>= fun _ =>
          transport c.recording url) (w, [])).2.2 = List.replicate L.length none ∧
      builderCalls ((exec c.recording.createFormBuilder L >>= fun _ =>
          transport c.recording url) (w, [])).2.2 = L) ∨
    ∃ k e, k < L.length ∧
      ((exec c.recording.createFormBuilder L >>= fun _ =>
          transport c.recording url) (w, [])).2.2 =
        List.zipWith Event.builder (L.take (k + 1)) (List.replicate k none ++ [some e]) ∧
      ((exec c.recording.createFormBuilder L >>= fun _ =>
          transport c.recording url) (w, [])).1 = Except.error e ∧
      ((exec c.createFormBuilder L >>= fun _ => transport c url) w).1 = Except.error e := by
  rw [script_recording, script_plain]
  rcases runCalls_shape c.createFormBuilder L w with h | ⟨k, e, hk, h⟩
  · left
    have hf : firstError (runCalls c.createFormBuilder L w).1 = none := by
      rw [h]
      simpa [firstError] using firstError_replicate L.length []
    rw [hf, h]
    simp [builderResults_append, builderCalls_append, builderResults_zipWith,
      builderCalls_zipWith, builderResults_transportLog, builderCalls_transportLog]
  · right
    have hf : firstError (runCalls c.createFormBuilder L w).1 = some e := by
      rw [h, firstError_replicate]
      rfl
    refine ⟨k, e, hk, ?_⟩
    rw [hf, h]
    refine ⟨?_, rfl, rfl⟩
    show List.zipWith Event.builder L (List.replicate k none ++ [some e]) = _
    have hlen : (List.replicate k (none : Option GoError) ++ [some e]).length = k + 1 := by simp
    rw [zipWith_builder_take L, hlen]

theorem editTrace_eq {ω : Type} (c : Client ω) (r : ImageEditRequest) (w : ω) :
    editTrace c r w = ((exec c.recording.createFormBuilder (editLayout r) >>= fun _ =>
      transport c.recording (c.fullURL "/images/edits" none)) (w, [])).2.2 := by
  unfold editTrace
  rw [CreateEditImage_eq]
  rfl

theorem variTrace_eq {ω : Type} (c : Client ω) (r : ImageVariRequest) (w : ω) :
    variTrace c r w = ((exec c.recording.createFormBuilder (variLayout r) >>= fun _ =>
      transport c.recording (c.fullURL "/images/variations" (some r.Model))) (w, [])).2.2 := by
  unfold variTrace
  rw [CreateVariImage_eq]
  rfl

theorem some_mem_replicate_append (k : Nat) (e : GoError) :
    some e ∈ List.replicate k (none : Option GoError) ++ [some e] := by simp

/-- When every logged builder call returned `nil`, the calls are the whole script. -/
theorem script_calls_of_ok {ω : Type} (c : Client ω) (L : List Call) (url : String) (w : ω)
    (hok : ∀ r ∈ builderResults ((exec c.recording.createFormBuilder L >>= fun _ =>
      transport c.recording url) (w, [])).2.2, r = none) :
    builderCalls ((exec c.recording.createFormBuilder L >>= fun _ =>
      transport c.recording url) (w, [])).2.2 = L := by
  rcases script_outcome c L url w with ⟨_, h⟩ | ⟨k, e, hk, hT, _, _⟩
  · exact h
  · exfalso
    rw [hT] at hok
    have hlen : (L.take (k + 1)).length = k + 1 := by simp; omega
    have := hok (some e) (by
      rw [builderResults_zipWith, hlen, List.take_of_length_le (by simp)]
      exact some_mem_replicate_append k e)
    cases this

/-- When the logged builder call number `i` returned the error `e`, the log is the first
`i + 1` calls of the script and nothing else, and `e` is returned. -/
theorem script_abort {ω : Type} (c : Client ω) (L : List Call) (url : String) (w : ω)
    (i : Nat) (e : GoError)
    (hi : (builderResults ((exec c.recording.createFormBuilder L >>= fun _ =>
      transport c.recording url) (w, [])).2.2)[i]? = some (some e)) :
    i < L.length ∧
    ((exec c.recording.createFormBuilder L >>= fun _ =>
      transport c.recording url) (w, [])).2.2 =
        List.zipWith Event.builder (L.take (i + 1)) (List.replicate i none ++ [some e]) ∧
    ((exec c.recording.createFormBuilder L >>= fun _ =>
      transport c.recording url) (w, [])).1 = Except.error e ∧
    ((exec c.createFormBuilder L >>= fun _ => transport c url) w).1 = Except.error e := by
  rcases script_outcome c L url w with ⟨h, _⟩ | ⟨k, e', hk, hT, h1, h2⟩
  · rw [h] at hi
    rw [List.getElem?_replicate] at hi
    split at hi <;> cases hi
  · have hlen : (L.take (k + 1)).length = k + 1 := by simp; omega
    rw [hT, builderResults_zipWith, hlen] at hi
    have hrs : List.take (k + 1) (List.replicate k (none : Option GoError) ++ [some e']) =
        List.replicate k none ++ [some e'] := by
      apply List.take_of_length_le
      simp
    rw [hrs] at hi
    have hik : i = k := by
      by_cases hlt : i < k
      · rw [List.getElem?_append_left (by simpa using hlt), List.getElem?_replicate] at hi
        simp [hlt] at hi
      · by_cases hgt : k < i
        · rw [List.getElem?_eq_none (by simp; omega)] at hi
          cases hi
        · omega
    subst hik
    have he : e' = e := by
      rw [List.getElem?_append_right (by simp)] at hi
      simpa using hi
    subst he
    exact ⟨hk, hT, h1, h2⟩

theorem builderCalls_zipWith_abort (L : List Call) (i : Nat) (e : GoError) :
    builderCalls (List.zipWith Event.builder (L.take (i + 1)) (List.replicate i none ++ [some e]))
      = L.take (i + 1) := by
  rw [builderCalls_zipWith]
  simp

theorem isTransport_zipWith (l : List Call) (rs : List (Option GoError)) :
    ∀ ev ∈ List.zipWith Event.builder l rs, ev.isTransport = false := by
  induction l generalizing rs with
  | nil => simp
  | cons x xs ih =>
    cases rs with
    | nil => simp
    | cons r rs =>
      intro ev hev
      simp only [List.zipWith_cons_cons, List.mem_cons] at hev
      rcases hev with rfl | hev
      · rfl
      · exact ih rs ev hev

theorem close_not_mem_imageParts (l : List FileHeader) : Call.Close ∉ imageParts l := by
  match l with
  | [] => simp [imageParts]
  | [x] => simp [imageParts]
  | x :: y :: t => simp [imageParts]

theorem editLayout_eq_body (r : ImageEditRequest) :
    ∃ body, editLayout r = body ++ [Call.Close] ∧ Call.Close ∉ body := by
  refine ⟨_, rfl, ?_⟩
  have := close_not_mem_imageParts r.Image
  cases r.Mask <;> simp [this]

theorem variLayout_eq_body (r : ImageVariRequest) :
    ∃ body, variLayout r = body ++ [Call.Close] ∧ Call.Close ∉ body :=
  ⟨[Call.CreateFormFile "image" r.Image, Call.WriteField "n" (Itoa r.N),
    Call.WriteField "size" r.Size, Call.WriteField "response_format" r.ResponseFormat], rfl,
    by simp⟩

theorem close_not_mem_take (L body : List Call) (i : Nat) (hL : L = body ++ [Call.Close])
    (hbody : Call.Close ∉ body) (hlt : i < L.length)
    (hne : (L.take (i + 1))[i]? ≠ some Call.Close) :
    Call.Close ∉ L.take (i + 1) := by
  subst hL
  by_cases hi : i < body.length
  · rw [List.take_append_of_le_length (by omega)]
    intro hmem
    exact hbody (List.mem_of_mem_take hmem)
  · have hi2 : i = body.length := by
      simp at hlt
      omega
    exfalso
    apply hne
    subst hi2
    rw [List.getElem?_take, if_pos (by omega), List.getElem?_append_right (le_refl _)]
    simp

/-- What an aborted script run looks like, for a script that ends with its only `Close`. -/
theorem script_abort_facts {ω : Type} (c : Client ω) (L body : List Call) (url : String) (w : ω)
    (i : Nat) (e : GoError) (hL : L = body ++ [Call.Close]) (hbody : Call.Close ∉ body)
    (hi : (builderResults ((exec c.recording.createFormBuilder L >>= fun _ =>
      transport c.recording url) (w, [])).2.2)[i]? = some (some e)) :
    ((exec c.createFormBuilder L >>= fun _ => transport c url) w).1 = Except.error e ∧
    ((exec c.recording.createFormBuilder L >>= fun _ =>
      transport c.recording url) (w, [])).1 = Except.error e ∧
    (((exec c.recording.createFormBuilder L >>= fun _ =>
      transport c.recording url) (w, [])).2.2).length = i + 1 ∧
    (∀ ev ∈ ((exec c.recording.createFormBuilder L >>= fun _ =>
      transport c.recording url) (w, [])).2.2, ev.isTransport = false) ∧
    builderCalls ((exec c.recording.createFormBuilder L >>= fun _ =>
      transport c.recording url) (w, [])).2.2 = L.take (i + 1) ∧
    ((builderCalls ((exec c.recording.createFormBuilder L >>= fun _ =>
        transport c.recording url) (w, [])).2.2)[i]? ≠ some Call.Close →
      Call.Close ∉ builderCalls ((exec c.recording.createFormBuilder L >>= fun _ =>
        transport c.recording url) (w, [])).2.2) := by
  obtain ⟨hlt, hT, h1, h2⟩ := script_abort c L url w i e hi
  have hcalls := builderCalls_zipWith_abort L i e
  rw [← hT] at hcalls
  refine ⟨h2, h1, ?_, ?_, hcalls, ?_⟩
  · rw [hT]
    simp
    omega
  · rw [hT]
    exact isTransport_zipWith _ _
  · rw [hcalls]
    exact close_not_mem_take L body i hL hbody hlt
/-! ## `strconv.Itoa` read back -/

theorem digitChar_toNat (d : Nat) (h : d < 10) : (digitChar d).toNat = 48 + d := by
  interval_cases d <;> rfl

theorem formatDecimal_acc (fuel u : Nat) (acc : List Char) :
    formatDecimal fuel u acc = formatDecimal fuel u [] ++ acc := by
  induction fuel generalizing u acc with
  | zero => rfl
  | succ n ih =>
    unfold formatDecimal
    split
    · rfl
    · rw [ih (u / 10) (digitChar (u % 10) :: acc), ih (u / 10) [digitChar (u % 10)]]
      simp

theorem parseDigits_append (xs ys : List Char) (a : Nat) :
    parseDigits (xs ++ ys) a = (parseDigits xs a).bind (parseDigits ys) := by
  induction xs generalizing a with
  | nil => rfl
  | cons x xs ih =>
    simp only [List.cons_append, parseDigits]
    split
    · exact ih _
    · rfl

theorem parseDigits_digit (d a : Nat) (h : d < 10) :
    parseDigits [digitChar d] a = some (a * 10 + d) := by
  simp [parseDigits, digitChar_toNat d h]
  omega

theorem parseDigits_formatDecimal (fuel u : Nat) (h : u < fuel) :
    parseDigits (formatDecimal fuel u []) 0 = some u := by
  induction fuel generalizing u with
  | zero => omega
  | succ n ih =>
    unfold formatDecimal
    split
    · rename_i hu
      simpa using parseDigits_digit u 0 hu
    · rename_i hu
      rw [formatDecimal_acc, parseDigits_append, ih (u / 10) (by omega)]
      simp only [Option.bind]
      rw [parseDigits_digit _ _ (Nat.mod_lt u (by decide))]
      congr 1
      omega

theorem formatDecimal_ne_nil (fuel u : Nat) : formatDecimal (fuel + 1) u [] ≠ [] := by
  unfold formatDecimal
  split
  · simp
  · rw [formatDecimal_acc]
    simp

/-- Reading back the text `strconv.Itoa` produces gives the integer. -/
theorem parseDecimal_Itoa (n : Int) : parseDecimal (Itoa n) = some n := by
  have hp := parseDigits_formatDecimal (n.natAbs + 1) n.natAbs (by omega)
  have hne := formatDecimal_ne_nil n.natAbs n.natAbs
  unfold parseDecimal Itoa
  by_cases hn : n < 0
  · simp only [hn, if_true]
    simp only [hne, if_false, hp]
    congr 1
    show -(n.natAbs : Int) = n
    rw [Int.ofNat_natAbs_of_nonpos (le_of_lt hn)]
    exact neg_neg n
  · simp only [hn, if_false]
    cases hds : formatDecimal (n.natAbs + 1) n.natAbs [] with
    | nil => exact absurd hds hne
    | cons x xs =>
      rw [hds] at hp
      simp only
      have hx : x ≠ '-' := by
        intro hx
        rw [hx] at hp
        simp [parseDigits] at hp
      rw [if_neg hx, hp]
      show some (n.natAbs : Int) = some n
      rw [Int.natAbs_of_nonneg (not_lt.mp hn)]
/-! ## The form builder: validation and handles -/

theorem createPart_handles {σ : Type} (w : IoWriter σ) (headers : Bytes) (st : BuilderState σ) :
    (createPart w headers st).2.handles = st.handles := by
  unfold createPart
  cases st.writer.lastpart with
  | none =>
    simp only
    rcases w.Write _ st.sink with ⟨r, s'⟩
    cases r <;> rfl
  | some p =>
    simp only
    cases p.we with
    | some e => rfl
    | none =>
      simp only
      rcases w.Write _ st.sink with ⟨r, s'⟩
      cases r <;> rfl

theorem partWrite_handles {σ : Type} (w : IoWriter σ) (d : Bytes) (st : BuilderState σ) :
    (partWrite w d st).2.handles = st.handles := by
  unfold partWrite
  cases st.writer.lastpart with
  | none => rfl
  | some p =>
    simp only
    split
    · rfl
    · rcases w.Write d st.sink with ⟨r, s'⟩
      cases r <;> rfl

theorem copyLoop_handles {σ : Type} (w : IoWriter σ) (final : Option GoError)
    (chunks : List Bytes) (st : BuilderState σ) :
    (copyLoop (partWrite w) final chunks st).2.handles = st.handles := by
  induction chunks generalizing st with
  | nil => rfl
  | cons c cs ih =>
    unfold copyLoop
    split
    · have h := partWrite_handles w c st
      rcases hp : partWrite w c st with ⟨r, s'⟩
      rw [hp] at h
      cases r with
      | none =>
        have h' : s'.handles = st.handles := h
        simpa [h'] using ih s'
      | some e => exact h
    · exact ih st

/-- C8. Scoped release of the handle of an upload descriptor: when `Open` fails,
`CreateFormFileHeader` returns the open error and leaves the builder, the sink and the handle
log as they were; when `Open` succeeds, the call appends to the handle log exactly one
`opened` and then one `closed` for that handle, whatever the sink and the stream do (part
created, part creation failed, copy failed partway). -/
theorem createFormFileHeader_scoped_release {σ : Type} (w : IoWriter σ) (fieldname : String)
    (filename : String) (st : BuilderState σ) :
    (∀ err, DefaultFormBuilder.CreateFormFileHeader w fieldname
        { Filename := filename, Open := OpenResult.failed err } st = (some err, st)) ∧
    (∀ file, (DefaultFormBuilder.CreateFormFileHeader w fieldname
        { Filename := filename, Open := OpenResult.opened file } st).2.handles =
      st.handles ++ [HandleEvent.opened file.id, HandleEvent.closed file.id]) := by
  constructor
  · intro err
    rfl
  · intro file
    unfold DefaultFormBuilder.CreateFormFileHeader createFormFileHeader writerCreateFormFile
    simp only
    have h1 := createPart_handles w (fileHeader fieldname filename)
      { st with handles := st.handles ++ [HandleEvent.opened file.id] }
    rcases hp : createPart w (fileHeader fieldname filename)
      { st with handles := st.handles ++ [HandleEvent.opened file.id] } with ⟨r, st'⟩
    rw [hp] at h1
    have h1' : st'.handles = st.handles ++ [HandleEvent.opened file.id] := h1
    cases r with
    | some e => simp [h1']
    | none =>
      simp only
      have h2 := copyLoop_handles w file.stream.err file.stream.chunks st'
      unfold ioCopy
      rcases hc : copyLoop (partWrite w) file.stream.err file.stream.chunks st' with ⟨r2, st''⟩
      rw [hc] at h2
      have h2' : st''.handles = st'.handles := h2
      cases r2 <;> simp [h2', h1']

theorem createFormFile_empty_filename {σ : Type} (w : IoWriter σ) (fieldname : String)
    (r : IoReader) (st : BuilderState σ) :
    createFormFile w fieldname r "" st = (some ⟨"filename cannot be empty"⟩, st) := rfl

theorem dropLeadingSlashes_eq_nil_or (l : List Char) :
    dropLeadingSlashes l = [] ∨ ∃ c t, dropLeadingSlashes l = c :: t ∧ c ≠ '/' := by
  induction l with
  | nil => left; rfl
  | cons c cs ih =>
    unfold dropLeadingSlashes
    split
    · exact ih
    · right; exact ⟨c, cs, rfl, by assumption⟩

theorem lastIndexByte_none (s : List Char) (c : Char) (h : lastIndexByte s c = none) :
    c ∉ s := by
  induction s with
  | nil => simp
  | cons x xs ih =>
    unfold lastIndexByte at h
    cases hx : lastIndexByte xs c with
    | some i => rw [hx] at h; cases h
    | none =>
      rw [hx] at h
      simp only at h
      split at h
      · cases h
      · rename_i hne
        intro hmem
        rcases List.mem_cons.mp hmem with rfl | hmem
        · exact hne rfl
        · exact ih hx hmem

theorem lastIndexByte_some (s : List Char) (c : Char) (i : Nat)
    (h : lastIndexByte s c = some i) :
    s = s.take i ++ c :: s.drop (i + 1) ∧ c ∉ s.drop (i + 1) := by
  induction s generalizing i with
  | nil => cases h
  | cons x xs ih =>
    unfold lastIndexByte at h
    cases hx : lastIndexByte xs c with
    | some j =>
      rw [hx] at h
      simp only [Option.some.injEq] at h
      subst h
      obtain ⟨h1, h2⟩ := ih j hx
      refine ⟨?_, by simpa using h2⟩
      simp only [List.take_succ_cons, List.drop_succ_cons, List.cons_append]
      rw [← h1]
    | none =>
      rw [hx] at h
      simp only at h
      split at h
      · rename_i hxc
        simp only [Option.some.injEq] at h
        subst h
        subst hxc
        exact ⟨by simp, by simpa using lastIndexByte_none xs x hx⟩
      · cases h

theorem dropLeadingSlashes_split (l : List Char) :
    ∃ k, l = List.replicate k '/' ++ dropLeadingSlashes l := by
  induction l with
  | nil => exact ⟨0, rfl⟩
  | cons c cs ih =>
    unfold dropLeadingSlashes
    split
    · rename_i hc
      obtain ⟨k, hk⟩ := ih
      refine ⟨k + 1, ?_⟩
      rw [List.replicate_succ, List.cons_append, ← hk, hc]
    · exact ⟨0, rfl⟩

theorem stripTrailingSlashes_split (p : List Char) :
    ∃ k, p = stripTrailingSlashes p ++ List.replicate k '/' := by
  obtain ⟨k, hk⟩ := dropLeadingSlashes_split p.reverse
  refine ⟨k, ?_⟩
  have := congrArg List.reverse hk
  simpa [stripTrailingSlashes] using this

theorem stripTrailingSlashes_getLast (p : List Char) :
    (stripTrailingSlashes p).getLast? ≠ some '/' := by
  unfold stripTrailingSlashes
  rcases dropLeadingSlashes_eq_nil_or p.reverse with h | ⟨c, t, h, hc⟩
  · rw [h]; simp
  · rw [h]
    simp
    exact hc

/-- What `path.Base` returns: `.` for the empty path, `/` for a path of slashes only, and
otherwise the text after the last slash of the path without its trailing slashes. -/
theorem Base_spec (path : String) :
    (path = "" ∧ Base path = ".") ∨
    (path ≠ "" ∧ stripTrailingSlashes path.data = [] ∧ Base path = "/") ∨
    (path ≠ "" ∧ ∃ pre, stripTrailingSlashes path.data = pre ++ (Base path).data ∧
      (pre = [] ∨ pre.getLast? = some '/') ∧ '/' ∉ (Base path).data ∧
      (Base path).data ≠ []) := by
  by_cases hp : path = ""
  · left; exact ⟨hp, by rw [hp]; rfl⟩
  · right
    have hlast := stripTrailingSlashes_getLast path.data
    unfold Base
    simp only [hp, if_false]
    cases hidx : lastIndexByte (stripTrailingSlashes path.data) '/' with
    | none =>
      simp only
      have hno := lastIndexByte_none _ _ hidx
      by_cases hnil : stripTrailingSlashes path.data = []
      · left
        exact ⟨hp, hnil, by simp [hnil]⟩
      · right
        refine ⟨hp, [], ?_⟩
        simp [hnil, hno]
    | some i =>
      simp only
      obtain ⟨hsplit, hno⟩ := lastIndexByte_some _ _ i hidx
      have hne : List.drop (i + 1) (stripTrailingSlashes path.data) ≠ [] := by
        intro hnil
        rw [hnil] at hsplit
        rw [hsplit] at hlast
        simp at hlast
      right
      refine ⟨hp, List.take i (stripTrailingSlashes path.data) ++ ['/'], ?_⟩
      simp only [hne, if_false]
      refine ⟨?_, by simp, hno, hne⟩
      conv_lhs => rw [hsplit]
      simp

theorem Base_ne_empty (path : String) : Base path ≠ "" := by
  rcases Base_spec path with ⟨_, h⟩ | ⟨_, _, h⟩ | ⟨_, pre, _, _, _, h⟩
  · rw [h]; decide
  · rw [h]; decide
  · intro he
    rw [he] at h
    exact h rfl

/-! ## The form builder on an in-memory buffer -/

theorem createPart_buffer_fresh (headers : Bytes) (st : BuilderState Bytes)
    (h : st.writer.lastpart = none) :
    createPart bufferWriter headers st =
      (none, { st with
        sink := st.sink ++ ("--".data ++ st.writer.boundary.data ++ "\r\n".data ++ headers ++
          "\r\n".data)
        writer := { st.writer with lastpart := some { closed := false, we := none } } }) := by
  unfold createPart
  rw [h]
  rfl

theorem createPart_buffer_next (headers : Bytes) (st : BuilderState Bytes) (p : Part)
    (h : st.writer.lastpart = some p) (hp : p.we = none) :
    createPart bufferWriter headers st =
      (none, { st with
        sink := st.sink ++ ("\r\n--".data ++ st.writer.boundary.data ++ "\r\n".data ++ headers ++
          "\r\n".data)
        writer := { st.writer with lastpart := some { closed := false, we := none } } }) := by
  unfold createPart
  rw [h]
  simp only [hp]
  rfl

theorem partWrite_buffer (d : Bytes) (st : BuilderState Bytes)
    (h : st.writer.lastpart = some { closed := false, we := none }) :
    partWrite bufferWriter d st = (none, { st with sink := st.sink ++ d }) := by
  unfold partWrite
  rw [h]
  rfl

theorem copyLoop_buffer (final : Option GoError) (chunks : List Bytes) (st : BuilderState Bytes)
    (h : st.writer.lastpart = some { closed := false, we := none }) :
    copyLoop (partWrite bufferWriter) final chunks st =
      (final, { st with sink := st.sink ++ chunks.flatten }) := by
  induction chunks generalizing st with
  | nil => simp [copyLoop]
  | cons c cs ih =>
    unfold copyLoop
    split
    · rw [partWrite_buffer c st h]
      simp only
      rw [ih { st with sink := st.sink ++ c } h]
      simp
    · rename_i hc
      have hc' : c = [] := by
        cases c with
        | nil => rfl
        | cons x xs => simp at hc
      rw [ih st h, hc']
      simp

/-- On a buffer, `createFormFile` with a non-empty name appends the boundary line, the file
headers, a blank line and the whole stream, and returns the final error of the stream. -/
theorem createFormFile_buffer (fieldname filename : String) (r : IoReader)
    (st : BuilderState Bytes) (hname : filename ≠ "")
    (h : st.writer.lastpart = none ∨ st.writer.lastpart = some { closed := false, we := none }) :
    createFormFile bufferWriter fieldname r filename st =
      (r.err, { st with
        sink := st.sink ++ (separator st.writer ++ fileHeader fieldname filename ++ "\r\n".data ++
          r.chunks.flatten)
        writer := { st.writer with lastpart := some { closed := false, we := none } } }) := by
  unfold createFormFile writerCreateFormFile ioCopy
  rw [if_neg hname]
  rcases h with h | h
  · rw [createPart_buffer_fresh _ st h]
    simp only
    rw [copyLoop_buffer _ _ _ rfl]
    cases r.err <;> simp [separator, h]
  · rw [createPart_buffer_next _ st _ h rfl]
    simp only
    rw [copyLoop_buffer _ _ _ rfl]
    cases r.err <;> simp [separator, h]

theorem writeField_buffer (fieldname value : String) (st : BuilderState Bytes)
    (h : st.writer.lastpart = none ∨ st.writer.lastpart = some { closed := false, we := none }) :
    DefaultFormBuilder.WriteField bufferWriter fieldname value st =
      (none, { st with
        sink := st.sink ++ (separator st.writer ++ fieldHeader fieldname ++ "\r\n".data ++
          value.data)
        writer := { st.writer with lastpart := some { closed := false, we := none } } }) := by
  unfold DefaultFormBuilder.WriteField writerWriteField
  rcases h with h | h
  · rw [createPart_buffer_fresh _ st h]
    simp only
    rw [partWrite_buffer _ _ rfl]
    simp [separator, h]
  · rw [createPart_buffer_next _ st _ h rfl]
    simp only
    rw [partWrite_buffer _ _ rfl]
    simp [separator, h]

theorem createFormFileHeader_buffer (fieldname filename : String) (file : MultipartFile)
    (st : BuilderState Bytes)
    (h : st.writer.lastpart = none ∨ st.writer.lastpart = some { closed := false, we := none }) :
    DefaultFormBuilder.CreateFormFileHeader bufferWriter fieldname
        { Filename := filename, Open := OpenResult.opened file } st =
      (file.stream.err, { st with
        sink := st.sink ++ (separator st.writer ++ fileHeader fieldname filename ++ "\r\n".data ++
          file.stream.chunks.flatten)
        writer := { st.writer with lastpart := some { closed := false, we := none } }
        handles := st.handles ++ [HandleEvent.opened file.id, HandleEvent.closed file.id] }) := by
  unfold DefaultFormBuilder.CreateFormFileHeader createFormFileHeader writerCreateFormFile ioCopy
  simp only
  rcases h with h | h
  · rw [createPart_buffer_fresh _
      { st with handles := st.handles ++ [HandleEvent.opened file.id] } h]
    simp only
    rw [copyLoop_buffer _ _ _ rfl]
    cases file.stream.err <;> simp [separator, h]
  · rw [createPart_buffer_next _
      { st with handles := st.handles ++ [HandleEvent.opened file.id] } _ h rfl]
    simp only
    rw [copyLoop_buffer _ _ _ rfl]
    cases file.stream.err <;> simp [separator, h]

theorem close_buffer (st : BuilderState Bytes)
    (h : st.writer.lastpart = none ∨ st.writer.lastpart = some { closed := false, we := none }) :
    DefaultFormBuilder.Close bufferWriter st =
      (none, { st with
        sink := st.sink ++ ("\r\n--".data ++ st.writer.boundary.data ++ "--\r\n".data)
        writer := { st.writer with lastpart := none } }) := by
  unfold DefaultFormBuilder.Close writerClose
  rcases h with h | h
  · rw [h]
    simp only [bufferWriter]
    congr 2
    cases st with
    | mk wr sk hd =>
      cases wr with
      | mk bd lp =>
        simp only at h
        subst h
        rfl
  · rw [h]
    rfl
/-! ## The reader reads back what the writer writes -/

theorem expect_append (l r : List Char) : expect l (l ++ r) = some r := by
  induction l with
  | nil => rfl
  | cons x xs ih => simp [expect, ih]

theorem expect_eq_some (l s r : List Char) (h : expect l s = some r) : s = l ++ r := by
  induction l generalizing s with
  | nil =>
    simp only [expect, Option.some.injEq] at h
    simp [h]
  | cons x xs ih =>
    cases s with
    | nil => simp [expect] at h
    | cons c cs =>
      simp only [expect] at h
      split at h
      · rename_i hxc
        rw [hxc, ih cs h]
        rfl
      · cases h

theorem expect_eq_none (l s : List Char) (h : ¬ l <+: s) : expect l s = none := by
  cases he : expect l s with
  | none => rfl
  | some r => exact absurd ⟨r, (expect_eq_some l s r he).symm⟩ h

theorem splitAtLit_of_expect (lit s r : List Char) (h : expect lit s = some r) :
    splitAtLit lit s = some ([], r) := by
  cases s with
  | nil => simp [splitAtLit, h]
  | cons c cs => simp [splitAtLit, h]

/-- The first occurrence of `lit` in `content ++ lit ++ tail` is the one after `content`, as
soon as `lit` does not start earlier. -/
theorem splitAtLit_append (lit content tail : List Char)
    (hno : ∀ a b, content = a ++ b → b ≠ [] → ¬ lit <+: b ++ lit ++ tail) :
    splitAtLit lit (content ++ lit ++ tail) = some (content, tail) := by
  induction content with
  | nil =>
    apply splitAtLit_of_expect
    simpa using expect_append lit tail
  | cons c cs ih =>
    have h1 : expect lit (c :: cs ++ lit ++ tail) = none :=
      expect_eq_none _ _ (hno [] (c :: cs) rfl (by simp))
    have h2 := ih (fun a b hab hb => hno (c :: a) b (by simp [hab]) hb)
    simp only [List.cons_append] at h1 ⊢
    simp only [splitAtLit, h1, h2]

/-- A literal whose first character does not occur again in it, and that starts inside `b`
in front of a copy of itself, lies within `b`. -/
theorem starts_within (h : Char) (lit' b tail : List Char) (hh : h ∉ lit') (hb : b ≠ [])
    (hpre : (h :: lit') <+: b ++ (h :: lit') ++ tail) : (h :: lit') <+: b := by
  have hb' : b <+: b ++ (h :: lit') ++ tail := ⟨(h :: lit') ++ tail, by simp⟩
  rcases List.prefix_or_prefix_of_prefix hpre hb' with h1 | h1
  · exact h1
  · obtain ⟨q, hq⟩ := h1
    cases b with
    | nil => exact absurd rfl hb
    | cons c b' =>
      simp only [List.cons_append, List.cons.injEq] at hq
      obtain ⟨hc, hq⟩ := hq
      cases q with
      | nil =>
        refine ⟨[], ?_⟩
        rw [← hq, hc]
        simp
      | cons x q' =>
        exfalso
        have hpre' : (c :: b') ++ (x :: q') <+: (c :: b') ++ ((h :: lit') ++ tail) := by
          have : (c :: b') ++ (x :: q') = h :: lit' := by
            simp only [List.cons_append, hc, hq]
          rw [this]
          simpa using hpre
        have hx := (List.prefix_append_right_inj (c :: b')).mp hpre'
        obtain ⟨t, ht⟩ := hx
        simp only [List.cons_append, List.cons.injEq] at ht
        apply hh
        rw [← hq, ht.1]
        simp

theorem splitAtLit_of_absent (h : Char) (lit' content tail : List Char) (hh : h ∉ lit')
    (habsent : ¬ (h :: lit') <:+: content) :
    splitAtLit (h :: lit') (content ++ (h :: lit') ++ tail) = some (content, tail) := by
  apply splitAtLit_append
  intro a b hab hb hpre
  obtain ⟨t, ht⟩ := starts_within h lit' b tail hh hb hpre
  exact habsent ⟨a, t, by rw [hab, ← ht]; simp⟩

theorem unquote_escapeQuotes (l rest : List Char) (fuel : Nat) (hfuel : l.length < fuel)
    (hl : ∀ c ∈ l, c ≠ '\r' ∧ c ≠ '\n') :
    unquote fuel (escapeQuotes l ++ '"' :: rest) = some (l, rest) := by
  induction l generalizing fuel with
  | nil =>
    cases fuel with
    | zero => simp at hfuel
    | succ f => simp [escapeQuotes, unquote]
  | cons c cs ih =>
    cases fuel with
    | zero => simp at hfuel
    | succ f =>
      have hf : cs.length < f := by simpa using hfuel
      have hcs : ∀ x ∈ cs, x ≠ '\r' ∧ x ≠ '\n' := fun x hx => hl x (List.mem_cons_of_mem c hx)
      have hc := hl c (List.mem_cons_self c cs)
      have ih' := ih f hf hcs
      by_cases h1 : c = '\\'
      · subst h1
        have ht : isTSpecial '\\' = true := by decide
        simp [escapeQuotes, unquote, ht, ih']
      · by_cases h2 : c = '"'
        · subst h2
          have ht : isTSpecial '"' = true := by decide
          simp [escapeQuotes, unquote, ht, ih']
        · simp [escapeQuotes, unquote, h1, h2, hc.1, hc.2, ih']

theorem mem_escapeQuotes (l : List Char) (x : Char) (hx : x ∈ escapeQuotes l) :
    x ∈ l ∨ x ∈ ['\\', '"', '%', '0', 'D', 'A'] := by
  induction l with
  | nil => simp [escapeQuotes] at hx
  | cons c cs ih =>
    have hrec : x ∈ escapeQuotes cs → x ∈ c :: cs ∨ x ∈ ['\\', '"', '%', '0', 'D', 'A'] := by
      intro h
      rcases ih h with h | h
      · left; exact List.mem_cons_of_mem _ h
      · right; exact h
    unfold escapeQuotes at hx
    split at hx
    · simp only [List.mem_cons] at hx
      rcases hx with rfl | rfl | hx
      · right; decide
      · right; decide
      · exact hrec hx
    · split at hx
      · simp only [List.mem_cons] at hx
        rcases hx with rfl | rfl | hx
        · right; decide
        · right; decide
        · exact hrec hx
      · split at hx
        · simp only [List.mem_cons] at hx
          rcases hx with rfl | rfl | rfl | hx
          · right; decide
          · right; decide
          · right; decide
          · exact hrec hx
        · split at hx
          · simp only [List.mem_cons] at hx
            rcases hx with rfl | rfl | rfl | hx
            · right; decide
            · right; decide
            · right; decide
            · exact hrec hx
          · simp only [List.mem_cons] at hx
            rcases hx with rfl | hx
            · left; exact List.mem_cons_self _ _
            · exact hrec hx

theorem escapeQuotes_valid (l : List Char) (hl : ∀ c ∈ l, validHeaderByte c = true) :
    ∀ c ∈ escapeQuotes l, validHeaderByte c = true := by
  intro c hc
  rcases mem_escapeQuotes l c hc with h | h
  · exact hl c h
  · have hall : ∀ x ∈ ['\\', '"', '%', '0', 'D', 'A'], validHeaderByte x = true := by decide
    exact hall c h

theorem valid_ne_cr (c : Char) (h : validHeaderByte c = true) : c ≠ '\r' ∧ c ≠ '\n' := by
  constructor
  · rintro rfl
    exact absurd h (by decide)
  · rintro rfl
    exact absurd h (by decide)

theorem no_crlf_inside (line : List Char) (hline : ∀ c ∈ line, validHeaderByte c = true) :
    ¬ ('\r' :: ['\n']) <:+: line := by
  rintro ⟨a, b, hab⟩
  have : '\r' ∈ line := by rw [← hab]; simp
  exact (valid_ne_cr _ (hline _ this)).1 rfl

/-- Splitting a header-safe line off the text that follows its line break. -/
theorem splitAtLit_line (line rest : List Char)
    (hline : ∀ c ∈ line, validHeaderByte c = true) :
    splitAtLit "\r\n".data (line ++ "\r\n".data ++ rest) = some (line, rest) :=
  splitAtLit_of_absent '\r' ['\n'] line rest (by decide) (no_crlf_inside line hline)

theorem length_le_escapeQuotes (l : List Char) : l.length ≤ (escapeQuotes l).length := by
  induction l with
  | nil => simp [escapeQuotes]
  | cons c cs ih =>
    unfold escapeQuotes
    repeat' split
    all_goals simp
    all_goals omega

theorem valid_of_all (l : List Char) (h : l.all validHeaderByte = true) :
    ∀ c ∈ l, validHeaderByte c = true := by
  simpa using h

theorem readParam_one (key : List Char) (value : String) (rest : List Char)
    (hkey : splitAtLit "=\"".data (key ++ "=\"".data ++ (escapeQuotes value.data ++ '"' :: rest)) =
      some (key, escapeQuotes value.data ++ '"' :: rest))
    (hv : ∀ c ∈ value.data, validHeaderByte c = true) (fuel : Nat) :
    readParams (fuel + 1)
        ("; ".data ++ (key ++ "=\"".data ++ (escapeQuotes value.data ++ '"' :: rest))) =
      match readParams fuel rest with
      | none => none
      | some ps => some ((String.mk key, value) :: ps) := by
  have hu := unquote_escapeQuotes value.data rest
    ((escapeQuotes value.data ++ '"' :: rest).length + 1)
    (by
      have := length_le_escapeQuotes value.data
      simp only [List.length_append, List.length_cons]
      omega)
    (fun c hc => valid_ne_cr c (hv c hc))
  rw [readParams]
  have hne : ("; ".data ++ (key ++ "=\"".data ++ (escapeQuotes value.data ++ '"' :: rest))) ≠ [] := by
    simp
  rw [if_neg hne, expect_append]
  simp only [hkey, hu]

theorem readParams_paramsText (p : WrittenPart) (fuel : Nat) (hfuel : 3 ≤ fuel)
    (hname : ∀ c ∈ p.name.data, validHeaderByte c = true)
    (hfile : ∀ f, p.filename = some f → ∀ c ∈ f.data, validHeaderByte c = true) :
    ∃ params, readParams fuel (paramsText p) = some params ∧
      params.lookup "name" = some p.name ∧ params.lookup "filename" = p.filename := by
  obtain ⟨n, rfl⟩ : ∃ n, fuel = n + 3 := ⟨fuel - 3, by omega⟩
  cases hf : p.filename with
  | none =>
    refine ⟨[("name", p.name)], ?_, ?_, ?_⟩
    · have := readParam_one "name".data p.name [] rfl hname (n + 2)
      simp only [paramsText, hf]
      have h2 : readParams (n + 2) [] = some [] := by simp [readParams]
      rw [h2] at this
      simpa using this
    · simp [List.lookup]
    · simp [List.lookup]
  | some f =>
    refine ⟨[("name", p.name), ("filename", f)], ?_, ?_, ?_⟩
    · have h1 := readParam_one "name".data p.name
        ("; ".data ++ ("filename".data ++ "=\"".data ++ (escapeQuotes f.data ++ '"' :: []))) rfl
        hname (n + 2)
      have h2 := readParam_one "filename".data f [] rfl (hfile f hf) (n + 1)
      have h3 : readParams (n + 1) [] = some [] := by simp [readParams]
      rw [h3] at h2
      rw [h2] at h1
      simp only [paramsText, hf]
      simpa using h1
    · simp [List.lookup]
    · simp [List.lookup]

theorem readHeader_one (key value rest : List Char) (fuel : Nat)
    (hstart : expect "\r\n".data ((key ++ ": ".data ++ value) ++ "\r\n".data ++ rest) = none)
    (hkey : splitAtLit ": ".data (key ++ ": ".data ++ value) = some (key, value))
    (hvalid : ∀ c ∈ key ++ ": ".data ++ value, validHeaderByte c = true) :
    readHeaders (fuel + 1) ((key ++ ": ".data ++ value) ++ "\r\n".data ++ rest) =
      match readHeaders fuel rest with
      | none => none
      | some (hs, body) => some ((String.mk key, value) :: hs, body) := by
  have hall : (key ++ ": ".data ++ value).all validHeaderByte = true :=
    List.all_eq_true.mpr hvalid
  rw [readHeaders]
  simp only [hstart, splitAtLit_line _ rest hvalid, hkey]
  rw [if_pos hall]

theorem readHeaders_blank (rest : List Char) (fuel : Nat) :
    readHeaders (fuel + 1) ("\r\n".data ++ rest) = some ([], rest) := by
  rw [readHeaders, expect_append]

theorem paramsText_valid (p : WrittenPart)
    (hname : ∀ c ∈ p.name.data, validHeaderByte c = true)
    (hfile : ∀ f, p.filename = some f → ∀ c ∈ f.data, validHeaderByte c = true) :
    ∀ c ∈ paramsText p, validHeaderByte c = true := by
  intro c hc
  unfold paramsText at hc
  have hn := escapeQuotes_valid _ hname
  cases hf : p.filename with
  | none =>
    rw [hf] at hc
    simp only [List.append_nil, List.mem_append] at hc
    rcases hc with (hc | hc) | hc
    · revert c; decide
    · exact hn c hc
    · revert c; decide
  | some f =>
    rw [hf] at hc
    have hfv := escapeQuotes_valid _ (hfile f hf)
    simp only [List.mem_append] at hc
    rcases hc with ((hc | hc) | hc) | ((hc | hc) | hc)
    · revert c; decide
    · exact hn c hc
    · revert c; decide
    · revert c; decide
    · exact hfv c hc
    · revert c; decide

/-- The header block of a part reads back as headers among which `Content-Disposition` has
the value the writer rendered. -/
theorem readHeaders_partHeader (p : WrittenPart) (rest : List Char) (fuel : Nat) (hfuel : 3 ≤ fuel)
    (hname : ∀ c ∈ p.name.data, validHeaderByte c = true)
    (hfile : ∀ f, p.filename = some f → ∀ c ∈ f.data, validHeaderByte c = true) :
    ∃ hs, readHeaders fuel (partHeader p ++ "\r\n".data ++ rest) = some (hs, rest) ∧
      hs.lookup "Content-Disposition" = some ("form-data".data ++ paramsText p) := by
  obtain ⟨n, rfl⟩ : ∃ n, fuel = n + 3 := ⟨fuel - 3, by omega⟩
  have hpv := paramsText_valid p hname hfile
  have hvalid : ∀ c ∈ "Content-Disposition".data ++ ": ".data ++ ("form-data".data ++ paramsText p),
      validHeaderByte c = true := by
    intro c hc
    simp only [List.mem_append] at hc
    rcases hc with (hc | hc) | (hc | hc)
    · revert c; decide
    · revert c; decide
    · revert c; decide
    · exact hpv c hc
  cases hf : p.filename with
  | none =>
    refine ⟨[("Content-Disposition", "form-data".data ++ paramsText p)], ?_, by simp [List.lookup]⟩
    have h1 := readHeader_one "Content-Disposition".data ("form-data".data ++ paramsText p)
      ("\r\n".data ++ rest) (n + 2) rfl rfl hvalid
    rw [readHeaders_blank] at h1
    have hform : partHeader p ++ "\r\n".data ++ rest =
        ("Content-Disposition".data ++ ": ".data ++ ("form-data".data ++ paramsText p)) ++
          "\r\n".data ++ ("\r\n".data ++ rest) := by
      simp [partHeader, paramsText, hf, fieldHeader]
    rw [hform]
    exact h1
  | some f =>
    refine ⟨[("Content-Disposition", "form-data".data ++ paramsText p),
      ("Content-Type", "application/octet-stream".data)], ?_, by simp [List.lookup]⟩
    have h2 := readHeader_one "Content-Type".data "application/octet-stream".data
      ("\r\n".data ++ rest) (n + 1) rfl rfl (by decide)
    rw [readHeaders_blank] at h2
    have h1 := readHeader_one "Content-Disposition".data ("form-data".data ++ paramsText p)
      (("Content-Type".data ++ ": ".data ++ "application/octet-stream".data) ++ "\r\n".data ++
        ("\r\n".data ++ rest)) (n + 2) rfl rfl hvalid
    rw [h2] at h1
    have hform : partHeader p ++ "\r\n".data ++ rest =
        ("Content-Disposition".data ++ ": ".data ++ ("form-data".data ++ paramsText p)) ++
          "\r\n".data ++ (("Content-Type".data ++ ": ".data ++ "application/octet-stream".data) ++
            "\r\n".data ++ ("\r\n".data ++ rest)) := by
      simp [partHeader, paramsText, hf, fileHeader]
    rw [hform]
    exact h1

theorem matchAfter_line_break (x y : List Char) :
    matchAfter (x ++ '\r' :: '\n' :: y) = matchAfter (x ++ "\r\n".data) := by
  cases x with
  | nil => rfl
  | cons c x' =>
    cases x' with
    | nil =>
      simp only [List.cons_append, List.nil_append, matchAfter]
    | cons d x'' => simp only [List.cons_append, matchAfter]

theorem delimiterFree_append (lit a b : List Char) (h : delimiterFree lit (a ++ b) = true) :
    delimiterFree lit b = true := by
  induction a with
  | nil => exact h
  | cons c cs ih =>
    simp only [List.cons_append, delimiterFree, Bool.and_eq_true] at h
    exact ih h.2

/-- What `delimiterFree` says at a place where the delimiter occurs: what follows it is not
accepted as the end of a boundary. -/
theorem delimiterFree_head (boundary rest tail : List Char)
    (h : delimiterFree ("\r\n--".data ++ boundary)
      (("\r\n--".data ++ boundary) ++ rest) = true) :
    matchAfter (rest ++ ("\r\n--".data ++ boundary) ++ tail) = false := by
  have hshape : ("\r\n--".data ++ boundary) ++ rest =
      '\r' :: ('\n' :: '-' :: '-' :: boundary ++ rest) := by simp
  rw [hshape, delimiterFree, Bool.and_eq_true] at h
  have h1 := h.1
  have hexp : expect ("\r\n--".data ++ boundary)
      ('\r' :: ('\n' :: '-' :: '-' :: boundary ++ rest) ++ "\r\n".data) =
      some (rest ++ "\r\n".data) := by
    have := expect_append ("\r\n--".data ++ boundary) (rest ++ "\r\n".data)
    simpa using this
  rw [hexp] at h1
  have h2 : matchAfter (rest ++ "\r\n".data) = false := by simpa using h1
  have h3 := matchAfter_line_break rest ('-' :: '-' :: boundary ++ tail)
  rw [h2] at h3
  rw [← h3]
  simp

theorem scanBody_succ (lit : Bytes) (fuel : Nat) (s : Bytes) :
    scanBody lit (fuel + 1) s =
      match expect lit s with
      | some rest =>
        if matchAfter rest then some ([], rest)
        else
          match scanBody lit fuel rest with
          | some (b, a) => some (lit ++ b, a)
          | none => none
      | none =>
        match s with
        | [] => none
        | c :: cs =>
          match scanBody lit fuel cs with
          | some (b, a) => some (c :: b, a)
          | none => none := rfl

/-- The search for the delimiter stops at the one the writer puts after a content that holds
no boundary. -/
theorem scanBody_content (boundary tail : List Char) (hb : '\r' ∉ boundary)
    (htail : matchAfter tail = true) (fuel : Nat) (content : List Char)
    (hfuel : content.length < fuel)
    (hfree : delimiterFree ("\r\n--".data ++ boundary) content = true) :
    scanBody ("\r\n--".data ++ boundary) fuel
      (content ++ ("\r\n--".data ++ boundary) ++ tail) = some (content, tail) := by
  induction fuel generalizing content with
  | zero => omega
  | succ f ih =>
    have hh : '\r' ∉ '\n' :: '-' :: '-' :: boundary := by
      intro hmem
      simp only [List.mem_cons] at hmem
      rcases hmem with h | h | h | h
      · revert h; decide
      · revert h; decide
      · revert h; decide
      · exact hb h
    rw [scanBody_succ]
    cases content with
    | nil =>
      have : expect ("\r\n--".data ++ boundary) ([] ++ ("\r\n--".data ++ boundary) ++ tail) =
          some tail := by simpa using expect_append ("\r\n--".data ++ boundary) tail
      rw [this]
      simp [htail]
    | cons c cs =>
      cases he : expect ("\r\n--".data ++ boundary)
          (c :: cs ++ ("\r\n--".data ++ boundary) ++ tail) with
      | none =>
        simp only [delimiterFree, Bool.and_eq_true] at hfree
        have ih' := ih cs (by simpa using hfuel) hfree.2
        simp only [List.cons_append] at ih' ⊢
        simp only [ih']
      | some rest =>
        have hs := expect_eq_some _ _ _ he
        have hpre : ('\r' :: '\n' :: '-' :: '-' :: boundary) <+:
            (c :: cs) ++ ('\r' :: '\n' :: '-' :: '-' :: boundary) ++ tail :=
          ⟨rest, by simpa using hs.symm⟩
        obtain ⟨t, ht⟩ := starts_within '\r' ('\n' :: '-' :: '-' :: boundary) (c :: cs) tail hh
          (by simp) hpre
        have hcontent : c :: cs = ("\r\n--".data ++ boundary) ++ t := by
          rw [← ht]; simp
        have hrest : rest = t ++ ("\r\n--".data ++ boundary) ++ tail := by
          have h1 : ("\r\n--".data ++ boundary) ++ rest =
              ("\r\n--".data ++ boundary) ++ (t ++ ("\r\n--".data ++ boundary) ++ tail) := by
            rw [← hs, hcontent]
            simp
          exact List.append_cancel_left h1
        have hno : matchAfter rest = false := by
          rw [hrest]
          exact delimiterFree_head boundary t tail (by rw [← hcontent]; exact hfree)
        have hlen : t.length < f := by
          have := congrArg List.length hcontent
          simp only [List.length_cons, List.length_append] at this hfuel
          have h4 : 4 ≤ ("\r\n--".data).length := by decide
          omega
        have hfree' : delimiterFree ("\r\n--".data ++ boundary) t = true :=
          delimiterFree_append _ ("\r\n--".data ++ boundary) t (by rw [← hcontent]; exact hfree)
        have ih' := ih t hlen hfree'
        rw [← hrest] at ih'
        simp only [hno, ih', Bool.false_eq_true, if_false]
        rw [hcontent]

/-- The body of a part that holds no boundary ends at the delimiter the writer puts after
it. -/
theorem readBody_content (boundary content tail : List Char) (hb : '\r' ∉ boundary)
    (htail : matchAfter tail = true)
    (hfree : delimiterFree ("\r\n--".data ++ boundary) ("\r\n".data ++ content) = true) :
    readBody boundary (content ++ ("\r\n--".data ++ boundary) ++ tail) = some (content, tail) := by
  have hfree0 : delimiterFree ("\r\n--".data ++ boundary) content = true :=
    delimiterFree_append _ "\r\n".data content hfree
  unfold readBody
  cases he : expect ("--".data ++ boundary) (content ++ ("\r\n--".data ++ boundary) ++ tail) with
  | none =>
    simp only
    exact scanBody_content boundary tail hb htail _ content (by simp; omega) hfree0
  | some rest =>
    have hs := expect_eq_some _ _ _ he
    have hpre : ("--".data ++ boundary) <+: content ++ ("\r\n--".data ++ boundary) ++ tail :=
      ⟨rest, hs.symm⟩
    have hcon : content <+: content ++ ("\r\n--".data ++ boundary) ++ tail :=
      ⟨("\r\n--".data ++ boundary) ++ tail, by simp⟩
    have hin : ("--".data ++ boundary) <+: content := by
      rcases List.prefix_or_prefix_of_prefix hpre hcon with h1 | h1
      · exact h1
      · obtain ⟨q, hq⟩ := h1
        cases q with
        | nil => exact ⟨[], by rw [← hq]; simp⟩
        | cons x q' =>
          exfalso
          have hpre' : content ++ (x :: q') <+:
              content ++ (("\r\n--".data ++ boundary) ++ tail) := by
            rw [hq]
            simpa using hpre
          obtain ⟨t, ht⟩ := (List.prefix_append_right_inj content).mp hpre'
          have hx : x = '\r' := by
            have := congrArg List.head? ht
            simpa using this
          have hmem : '\r' ∈ "--".data ++ boundary := by
            rw [← hq, hx]
            simp
          simp only [List.mem_append] at hmem
          rcases hmem with hmem | hmem
          · revert hmem; decide
          · exact hb hmem
    obtain ⟨t, ht⟩ := hin
    have hrest : rest = t ++ ("\r\n--".data ++ boundary) ++ tail := by
      have h1 : ("--".data ++ boundary) ++ rest =
          ("--".data ++ boundary) ++ (t ++ ("\r\n--".data ++ boundary) ++ tail) := by
        rw [← hs, ← ht]
        simp
      exact List.append_cancel_left h1
    have hwhole : "\r\n".data ++ content = ("\r\n--".data ++ boundary) ++ t := by
      rw [← ht]; simp
    have hno : matchAfter rest = false := by
      rw [hrest]
      exact delimiterFree_head boundary t tail (by rw [← hwhole]; exact hfree)
    have hfree' : delimiterFree ("\r\n--".data ++ boundary) t = true :=
      delimiterFree_append _ ("\r\n--".data ++ boundary) t (by rw [← hwhole]; exact hfree)
    have hscan := scanBody_content boundary tail hb htail (rest.length + 1) t
      (by rw [hrest]; simp; omega) hfree'
    rw [← hrest] at hscan
    simp only [hno, hscan, Bool.false_eq_true, if_false]
    rw [← ht]

theorem fileNameOf_lookup (params : List (String × String)) (p : WrittenPart)
    (h : params.lookup "filename" = p.filename) :
    fileNameOf params = p.reported.filename := by
  unfold fileNameOf WrittenPart.reported
  rw [h]

/-- A part the writer wrote, followed by a delimiter and by what makes it a boundary line,
reads back as Go's reader reports it. -/
theorem readPart_partBlock (boundary : String) (p : WrittenPart) (tail : List Char)
    (hb : '\r' ∉ boundary.data) (htail : matchAfter tail = true) (hp : p.safe boundary) :
    readPart boundary.data (partBlock p ++ ("\r\n--".data ++ boundary.data) ++ tail) =
      some (p.reported, tail) := by
  obtain ⟨hname, hfile, hcontent⟩ := hp
  have hname' := valid_of_all _ hname
  have hfile' : ∀ f, p.filename = some f → ∀ c ∈ f.data, validHeaderByte c = true := by
    intro f hf
    rw [hf] at hfile
    exact valid_of_all _ hfile
  have hshape : partBlock p ++ ("\r\n--".data ++ boundary.data) ++ tail =
      partHeader p ++ "\r\n".data ++ (p.content ++ ("\r\n--".data ++ boundary.data) ++ tail) := by
    simp [partBlock]
  obtain ⟨hs, hread, hlook⟩ := readHeaders_partHeader p
    (p.content ++ ("\r\n--".data ++ boundary.data) ++ tail)
    ((partBlock p ++ ("\r\n--".data ++ boundary.data) ++ tail).length + 1)
    (by simp; omega) hname' hfile'
  obtain ⟨params, hparams, hn, hf⟩ := readParams_paramsText p ((paramsText p).length + 1)
    (by simp [paramsText]) hname' hfile'
  unfold readPart
  rw [← hshape] at hread
  rw [hread]
  simp only [hlook, expect_append, hparams, hn,
    readBody_content _ _ _ hb htail hcontent, fileNameOf_lookup params p hf]
  rfl

theorem readParts_blocks (boundary : String) (parts : List WrittenPart) (fuel : Nat)
    (hne : parts ≠ []) (hfuel : parts.length ≤ fuel) (hb : '\r' ∉ boundary.data)
    (hsafe : ∀ p ∈ parts, p.safe boundary) :
    readParts boundary.data fuel (blocks boundary.data parts) =
      some (parts.map WrittenPart.reported) := by
  induction parts generalizing fuel with
  | nil => exact absurd rfl hne
  | cons p ps ih =>
    cases fuel with
    | zero => simp at hfuel
    | succ f =>
      have hp := hsafe p (List.mem_cons_self p ps)
      cases ps with
      | nil =>
        have hshape : blocks boundary.data [p] =
            partBlock p ++ ("\r\n--".data ++ boundary.data) ++ "--\r\n".data := by
          simp [blocks]
        rw [hshape, readParts, readPart_partBlock boundary p "--\r\n".data hb rfl hp]
        rfl
      | cons q qs =>
        have hshape : blocks boundary.data (p :: q :: qs) =
            partBlock p ++ ("\r\n--".data ++ boundary.data) ++
              ("\r\n".data ++ blocks boundary.data (q :: qs)) := by
          simp [blocks]
        have ih' := ih f (by simp) (by simpa using hfuel)
          (fun x hx => hsafe x (List.mem_cons_of_mem p hx))
        have hafter : afterBoundary ("\r\n".data ++ blocks boundary.data (q :: qs)) =
            BoundaryLine.delimiter (blocks boundary.data (q :: qs)) := rfl
        rw [hshape, readParts, readPart_partBlock boundary p
          ("\r\n".data ++ blocks boundary.data (q :: qs)) hb rfl hp]
        simp only [hafter, ih']
        rfl

theorem length_le_blocks (boundary : Bytes) (parts : List WrittenPart) :
    parts.length ≤ (blocks boundary parts).length := by
  induction parts with
  | nil => simp
  | cons p ps ih =>
    cases ps with
    | nil => simp [blocks]; omega
    | cons q qs =>
      simp only [blocks, List.length_append, List.length_cons] at ih ⊢
      have : ("\r\n".data).length = 2 := rfl
      omega

/-- The reader reads the wire format of a list of safe parts back as the list of the parts as
reported. -/
theorem readForm_wire (boundary : String) (parts : List WrittenPart)
    (hb : '\r' ∉ boundary.data) (hsafe : ∀ p ∈ parts, p.safe boundary) :
    readForm boundary (wire boundary parts) = some (parts.map WrittenPart.reported) := by
  unfold readForm
  cases parts with
  | nil =>
    have h1 : expect ("--".data ++ boundary.data)
        ("--".data ++ boundary.data ++ "--\r\n".data) = some "--\r\n".data := by
      simpa using expect_append ("--".data ++ boundary.data) "--\r\n".data
    show readPreamble boundary.data (("\r\n--".data ++ boundary.data ++ "--\r\n".data).length + 1)
      ("\r\n--".data ++ boundary.data ++ "--\r\n".data) = some []
    have hlen : ∃ n, ("\r\n--".data ++ boundary.data ++ "--\r\n".data).length + 1 = n + 2 :=
      ⟨("\r\n--".data ++ boundary.data ++ "--\r\n".data).length - 1, by simp⟩
    obtain ⟨n, hn⟩ := hlen
    rw [hn]
    have hstep : readPreamble boundary.data (n + 2)
        ("\r\n--".data ++ boundary.data ++ "--\r\n".data) =
        readPreamble boundary.data (n + 1) ("--".data ++ boundary.data ++ "--\r\n".data) := rfl
    rw [hstep, readPreamble, h1]
    rfl
  | cons p ps =>
    show readPreamble boundary.data _
      ("--".data ++ boundary.data ++ "\r\n".data ++ blocks boundary.data (p :: ps)) = _
    have h1 : expect ("--".data ++ boundary.data)
        ("--".data ++ boundary.data ++ "\r\n".data ++ blocks boundary.data (p :: ps)) =
        some ("\r\n".data ++ blocks boundary.data (p :: ps)) := by
      simpa using expect_append ("--".data ++ boundary.data)
        ("\r\n".data ++ blocks boundary.data (p :: ps))
    have hafter : afterBoundary ("\r\n".data ++ blocks boundary.data (p :: ps)) =
        BoundaryLine.delimiter (blocks boundary.data (p :: ps)) := rfl
    rw [readPreamble, h1]
    simp only [hafter]
    exact readParts_blocks boundary (p :: ps) _ (by simp)
      (by have := length_le_blocks boundary.data (p :: ps); omega) hb hsafe

theorem blocks_eq_streamed (boundary : Bytes) (p : WrittenPart) (ps : List WrittenPart) :
    blocks boundary (p :: ps) =
      partBlock p ++ streamed boundary false ps ++ ("\r\n--".data ++ boundary ++ "--\r\n".data) := by
  induction ps generalizing p with
  | nil => simp [blocks, streamed]
  | cons q qs ih =>
    simp only [blocks, streamed, ih q]
    simp

theorem wire_eq_streamed (boundary : String) (parts : List WrittenPart) :
    wire boundary parts =
      streamed boundary.data true parts ++ ("\r\n--".data ++ boundary.data ++ "--\r\n".data) := by
  cases parts with
  | nil => simp [wire, streamed]
  | cons p ps =>
    simp only [wire, streamed, blocks_eq_streamed]
    simp
/-- A call other than `Close` that returns `nil` on a buffer writes exactly its part, behind
a boundary line. -/
theorem perform_buffer_ok (c : Call) (st : BuilderState Bytes)
    (hready : st.writer.lastpart = none ∨
      st.writer.lastpart = some { closed := false, we := none })
    (hc : c ≠ Call.Close)
    (hok : (perform (defaultFormBuilder bufferWriter) c st).1 = none) :
    ∃ p, c.written = some p ∧
      (perform (defaultFormBuilder bufferWriter) c st).2.sink =
        st.sink ++ (separator st.writer ++ partBlock p) ∧
      (perform (defaultFormBuilder bufferWriter) c st).2.writer =
        { boundary := st.writer.boundary, lastpart := some { closed := false, we := none } } := by
  cases c with
  | Close => exact absurd rfl hc
  | WriteField n v =>
    refine ⟨{ name := n, filename := none, content := v.data }, rfl, ?_⟩
    show (DefaultFormBuilder.WriteField bufferWriter n v st).2.sink = _ ∧
      (DefaultFormBuilder.WriteField bufferWriter n v st).2.writer = _
    rw [writeField_buffer n v st hready]
    simp [partBlock, partHeader]
  | CreateFormFile n f =>
    refine ⟨{ name := n, filename := some f.name, content := f.stream.chunks.flatten }, rfl, ?_⟩
    have hok' : (createFormFile bufferWriter n f.stream f.name st).1 = none := hok
    show (createFormFile bufferWriter n f.stream f.name st).2.sink = _ ∧
      (createFormFile bufferWriter n f.stream f.name st).2.writer = _
    by_cases hname : f.name = ""
    · rw [hname, createFormFile_empty_filename] at hok'
      cases hok'
    · rw [createFormFile_buffer n f.name f.stream st hname hready]
      simp [partBlock, partHeader]
  | CreateFormFileReader n r fname =>
    refine ⟨{ name := n, filename := some (Base fname), content := r.chunks.flatten }, rfl, ?_⟩
    show (createFormFile bufferWriter n r (Base fname) st).2.sink = _ ∧
      (createFormFile bufferWriter n r (Base fname) st).2.writer = _
    rw [createFormFile_buffer n (Base fname) r st (Base_ne_empty fname) hready]
    simp [partBlock, partHeader]
  | CreateFormFileHeader n fh =>
    cases fh with
    | mk filename op =>
      cases op with
      | failed err =>
        have : (perform (defaultFormBuilder bufferWriter)
            (Call.CreateFormFileHeader n { Filename := filename, Open := OpenResult.failed err })
            st).1 = some err := rfl
        rw [this] at hok
        cases hok
      | opened file =>
        refine ⟨WrittenPart.mk n (some filename) file.stream.chunks.flatten, rfl, ?_⟩
        show (DefaultFormBuilder.CreateFormFileHeader bufferWriter n
            { Filename := filename, Open := OpenResult.opened file } st).2.sink = _ ∧
          (DefaultFormBuilder.CreateFormFileHeader bufferWriter n
            { Filename := filename, Open := OpenResult.opened file } st).2.writer = _
        rw [createFormFileHeader_buffer n filename file st hready]
        simp [partBlock, partHeader]

theorem separator_eq (w : MultipartWriter) :
    separator w =
      (if w.lastpart.isNone then "--".data else "\r\n--".data) ++ w.boundary.data ++ "\r\n".data := by
  unfold separator
  cases w.lastpart <;> simp

theorem runCalls_cons {ω : Type} (b : FormBuilder ω) (c : Call) (cs : List Call) (w : ω) :
    runCalls b (c :: cs) w =
      match perform b c w with
      | (none, w') => (none :: (runCalls b cs w').1, (runCalls b cs w').2)
      | (some e, w') => ([some e], w') := rfl

/-- The sink after a run of successful calls and `Close` on a buffer. -/
theorem runCalls_buffer (calls : List Call) (st : BuilderState Bytes)
    (hready : st.writer.lastpart = none ∨
      st.writer.lastpart = some { closed := false, we := none })
    (hclose : Call.Close ∉ calls)
    (hok : ∀ r ∈ (runCalls (defaultFormBuilder bufferWriter) (calls ++ [Call.Close]) st).1,
      r = none) :
    (runCalls (defaultFormBuilder bufferWriter) (calls ++ [Call.Close]) st).2.sink =
      st.sink ++ streamed st.writer.boundary.data st.writer.lastpart.isNone
          (calls.filterMap Call.written) ++
        ("\r\n--".data ++ st.writer.boundary.data ++ "--\r\n".data) := by
  induction calls generalizing st with
  | nil =>
    have hcl := close_buffer st hready
    have hcl' : perform (defaultFormBuilder bufferWriter) Call.Close st =
        DefaultFormBuilder.Close bufferWriter st := rfl
    simp only [List.nil_append, runCalls, hcl', hcl]
    simp [streamed]
  | cons c cs ih =>
    have hc : c ≠ Call.Close := fun h => hclose (by simp [h])
    have hcs : Call.Close ∉ cs := fun h => hclose (List.mem_cons_of_mem c h)
    rw [List.cons_append, runCalls_cons] at hok ⊢
    rcases hperf : perform (defaultFormBuilder bufferWriter) c st with ⟨r, st'⟩
    rw [hperf] at hok
    cases r with
    | some e =>
      have := hok (some e) (by simp)
      cases this
    | none =>
      simp only at hok ⊢
      obtain ⟨p, hp, hsink, hwriter⟩ := perform_buffer_ok c st hready hc (by rw [hperf])
      rw [hperf] at hsink hwriter
      simp only at hsink hwriter
      have hready' : st'.writer.lastpart = none ∨
          st'.writer.lastpart = some { closed := false, we := none } := by
        right; rw [hwriter]
      have ih' := ih st' hready' hcs (fun r hr => hok r (List.mem_cons_of_mem _ hr))
      rw [ih', hsink, hwriter, separator_eq]
      simp [List.filterMap_cons, hp, streamed]

/-- The body a fresh builder leaves in the buffer is the wire format of the parts written. -/
theorem bodyAfter_eq_wire (boundary : String) (calls : List Call)
    (hclose : Call.Close ∉ calls) (hok : allSucceed boundary calls) :
    bodyAfter boundary calls = wire boundary (calls.filterMap Call.written) := by
  unfold bodyAfter
  rw [runCalls_buffer calls (NewFormBuilder boundary []) (Or.inl rfl) hclose hok,
    wire_eq_streamed]
  simp [NewFormBuilder]

theorem written_isSome_of_ok (calls : List Call) (st : BuilderState Bytes)
    (hready : st.writer.lastpart = none ∨
      st.writer.lastpart = some { closed := false, we := none })
    (hclose : Call.Close ∉ calls)
    (hok : ∀ r ∈ (runCalls (defaultFormBuilder bufferWriter) (calls ++ [Call.Close]) st).1,
      r = none) :
    (calls.filterMap Call.written).length = calls.length := by
  induction calls generalizing st with
  | nil => rfl
  | cons c cs ih =>
    have hc : c ≠ Call.Close := fun h => hclose (by simp [h])
    have hcs : Call.Close ∉ cs := fun h => hclose (List.mem_cons_of_mem c h)
    rw [List.cons_append, runCalls_cons] at hok
    rcases hperf : perform (defaultFormBuilder bufferWriter) c st with ⟨r, st'⟩
    rw [hperf] at hok
    cases r with
    | some e =>
      have := hok (some e) (by simp)
      cases this
    | none =>
      simp only at hok
      obtain ⟨p, hp, _, hwriter⟩ := perform_buffer_ok c st hready hc (by rw [hperf])
      rw [hperf] at hwriter
      simp only at hwriter
      have ih' := ih st' (by right; rw [hwriter]) hcs
        (fun r hr => hok r (List.mem_cons_of_mem _ hr))
      simp [List.filterMap_cons, hp, ih']

/-! ## The assembler: layout and abort -/

theorem partsNamed_append (nm : String) (a b : List Call) :
    partsNamed nm (a ++ b) = partsNamed nm a ++ partsNamed nm b := by
  simp [partsNamed]

theorem partsNamed_field (nm n v : String) (h : n ≠ nm) :
    partsNamed nm [Call.WriteField n v] = [] := by
  simp [partsNamed, Call.fieldname, h]

theorem partsNamed_field_if (nm n v : String) (p : Prop) [Decidable p] (h : n ≠ nm) :
    partsNamed nm (if p then [Call.WriteField n v] else []) = [] := by
  split
  · exact partsNamed_field nm n v h
  · rfl

theorem partsNamed_close (nm : String) : partsNamed nm [Call.Close] = [] := by
  simp [partsNamed, Call.fieldname]

theorem partsNamed_map_same (nm : String) (l : List FileHeader) :
    partsNamed nm (l.map (Call.CreateFormFileHeader nm)) = l.map (Call.CreateFormFileHeader nm) := by
  induction l with
  | nil => rfl
  | cons x xs ih =>
    simp only [partsNamed, List.map_cons] at ih ⊢
    rw [List.filter_cons_of_pos (by simp [Call.fieldname]), ih]

theorem partsNamed_map_other (nm n : String) (l : List FileHeader) (h : n ≠ nm) :
    partsNamed nm (l.map (Call.CreateFormFileHeader n)) = [] := by
  induction l with
  | nil => rfl
  | cons x xs ih =>
    simp only [partsNamed, List.map_cons] at ih ⊢
    rw [List.filter_cons_of_neg (by simp [Call.fieldname, h]), ih]

theorem partsNamed_mask (nm : String) (m : Option FileHeader) (h : "mask" ≠ nm) :
    partsNamed nm (match m with
      | some mask => [Call.CreateFormFileHeader "mask" mask]
      | none => []) = [] := by
  cases m with
  | none => rfl
  | some mask => simp [partsNamed, Call.fieldname, h]

/-- The parts of the edit layout under a field name that no scalar field uses come from the
image parts and the mask. -/
theorem partsNamed_editLayout (nm : String) (r : ImageEditRequest)
    (h1 : "model" ≠ nm) (h2 : "prompt" ≠ nm) (h3 : "background" ≠ nm) (h4 : "n" ≠ nm)
    (h5 : "quality" ≠ nm) (h6 : "response_format" ≠ nm) (h7 : "size" ≠ nm) (h8 : "user" ≠ nm) :
    partsNamed nm (editLayout r) = partsNamed nm (imageParts r.Image) ++
      partsNamed nm (match r.Mask with
        | some mask => [Call.CreateFormFileHeader "mask" mask]
        | none => []) := by
  unfold editLayout
  simp only [partsNamed_append, partsNamed_field_if _ _ _ _ h3, partsNamed_field_if _ _ _ _ h4,
    partsNamed_field_if _ _ _ _ h5, partsNamed_field_if _ _ _ _ h6, partsNamed_field_if _ _ _ _ h7,
    partsNamed_field_if _ _ _ _ h8, partsNamed_field _ _ _ h1, partsNamed_field _ _ _ h2,
    partsNamed_close, List.append_nil, List.nil_append]

/-- C2. Fixed-order, presence-gated layout of the edit operation: when every builder call
made by `CreateEditImage` succeeds, the calls are exactly the field `model`, the image parts,
the field `prompt`, then those of `background`, `mask`, `n`, `quality`, `response_format`,
`size`, `user` (in this order) whose request field is non-empty, non-nil or non-zero, and one
`Close`; `model` and `prompt` are written whatever their value. -/
theorem edit_fixed_order_layout {ω : Type} (c : Client ω) (request : ImageEditRequest) (w : ω)
    (hok : ∀ r ∈ builderResults (editTrace c request w), r = none) :
    builderCalls (editTrace c request w) =
      [Call.WriteField "model" request.Model] ++ imageParts request.Image ++
        [Call.WriteField "prompt" request.Prompt] ++
        (if request.Background ≠ "" then [Call.WriteField "background" request.Background]
          else []) ++
        (match request.Mask with
          | some mask => [Call.CreateFormFileHeader "mask" mask]
          | none => []) ++
        (if request.N ≠ 0 then [Call.WriteField "n" (Itoa request.N)] else []) ++
        (if request.Quality ≠ "" then [Call.WriteField "quality" request.Quality] else []) ++
        (if request.ResponseFormat ≠ "" then
          [Call.WriteField "response_format" request.ResponseFormat] else []) ++
        (if request.Size ≠ "" then [Call.WriteField "size" request.Size] else []) ++
        (if request.User ≠ "" then [Call.WriteField "user" request.User] else []) ++
        [Call.Close] ∧
    (builderCalls (editTrace c request w)).count Call.Close = 1 := by
  have hcalls : builderCalls (editTrace c request w) = editLayout request := by
    rw [editTrace_eq] at hok ⊢
    exact script_calls_of_ok c (editLayout request) _ w hok
  refine ⟨hcalls, ?_⟩
  obtain ⟨body, hbody, hnot⟩ := editLayout_eq_body request
  rw [hcalls, hbody, List.count_append, List.count_eq_zero_of_not_mem hnot]
  rfl

set_option maxRecDepth 100000 in
/-- The layout of the edit operation on the two-image request, run on a `DefaultFormBuilder`
over a buffer. -/
theorem edit_fixed_order_layout_witness :
    (∀ r ∈ builderResults (editTrace bufferClient twoImageRequest (NewFormBuilder "B" [])),
      r = none) ∧
    builderCalls (editTrace bufferClient twoImageRequest (NewFormBuilder "B" [])) =
      [Call.WriteField "model" "gpt-image-1",
        Call.CreateFormFileHeader "image[]" (upload "a.png" 1 "AA"),
        Call.CreateFormFileHeader "image[]" (upload "b.png" 2 "BB"),
        Call.WriteField "prompt" "a cat", Call.WriteField "n" "2",
        Call.WriteField "size" "1024x1024", Call.Close] :=
  ⟨by decide, (edit_fixed_order_layout bufferClient twoImageRequest (NewFormBuilder "B" [])
    (by decide)).1⟩

theorem runCalls_length_le {ω : Type} (b : FormBuilder ω) (calls : List Call) (w : ω) :
    (runCalls b calls w).1.length ≤ calls.length := by
  rcases runCalls_shape b calls w with h | ⟨k, e, hk, h⟩
  · rw [h]; simp
  · rw [h]; simp; omega

/-- The results the recording client logs are the results of the builder calls. -/
theorem script_results {ω : Type} (c : Client ω) (L : List Call) (url : String) (w : ω) :
    builderResults ((exec c.recording.createFormBuilder L >>= fun _ =>
      transport c.recording url) (w, [])).2.2 = (runCalls c.createFormBuilder L w).1 := by
  rw [script_recording]
  have hlen := runCalls_length_le c.createFormBuilder L w
  cases h : firstError (runCalls c.createFormBuilder L w).1 with
  | none =>
    simp only [builderResults_append, builderResults_zipWith, builderResults_transportLog,
      List.append_nil]
    exact List.take_of_length_le hlen
  | some e =>
    simp only [builderResults_zipWith]
    exact List.take_of_length_le hlen

theorem firstError_of_all_none (rs : List (Option GoError)) (h : ∀ r ∈ rs, r = none) :
    firstError rs = none := by
  induction rs with
  | nil => rfl
  | cons r rs ih =>
    have hr := h r (by simp)
    subst hr
    exact ih (fun x hx => h x (List.mem_cons_of_mem _ hx))

/-- When no builder call fails, the request is made from the body the calls left behind. -/
theorem script_newRequest {ω : Type} (c : Client ω) (L : List Call) (url : String) (w : ω)
    (h : ∀ r ∈ (runCalls c.createFormBuilder L w).1, r = none) :
    Event.newRequest "POST" url (c.body (runCalls c.createFormBuilder L w).2)
        (c.createFormBuilder.FormDataContentType (runCalls c.createFormBuilder L w).2) ∈
      ((exec c.recording.createFormBuilder L >>= fun _ =>
        transport c.recording url) (w, [])).2.2 := by
  rw [script_recording, firstError_of_all_none _ h]
  simp only
  apply List.mem_append_right
  unfold transportLog
  split <;> simp

theorem filter_written (nm : String) (calls : List Call) :
    (calls.filterMap Call.written).filter (fun p => decide (p.name = nm)) =
      (partsNamed nm calls).filterMap Call.written := by
  induction calls with
  | nil => rfl
  | cons c cs ih =>
    have key : ∀ p, c.written = some p → (p.name = nm ↔ c.fieldname = some nm) := by
      intro p hp
      cases c with
      | Close => cases hp
      | WriteField n v => cases hp; simp [Call.fieldname]
      | CreateFormFile n f => cases hp; simp [Call.fieldname]
      | CreateFormFileReader n r fname => cases hp; simp [Call.fieldname]
      | CreateFormFileHeader n fh =>
        cases hO : fh.Open with
        | failed err => simp [Call.written, hO] at hp
        | opened file =>
          simp only [Call.written, hO, Option.some.injEq] at hp
          subst hp
          simp [Call.fieldname]
    unfold partsNamed at ih ⊢
    cases hw : c.written with
    | none =>
      rw [List.filterMap_cons_none hw, ih]
      by_cases hf : c.fieldname = some nm
      · rw [List.filter_cons_of_pos (by simpa using hf), List.filterMap_cons_none hw]
      · rw [List.filter_cons_of_neg (by simpa using hf)]
    | some p =>
      rw [List.filterMap_cons_some hw]
      by_cases hf : c.fieldname = some nm
      · rw [List.filter_cons_of_pos (by simpa using (key p hw).2 hf),
          List.filter_cons_of_pos (by simpa using hf), List.filterMap_cons_some hw, ih]
      · rw [List.filter_cons_of_neg (by simpa using fun h => hf ((key p hw).1 h)),
          List.filter_cons_of_neg (by simpa using hf), ih]

theorem all_isSome_of_filterMap_length {α β : Type} (f : α → Option β) (l : List α)
    (h : (l.filterMap f).length = l.length) : ∀ x ∈ l, (f x).isSome = true := by
  induction l with
  | nil => simp
  | cons a as ih =>
    cases ha : f a with
    | none =>
      rw [List.filterMap_cons_none ha] at h
      have := List.length_filterMap_le f as
      simp at h
      omega
    | some b =>
      rw [List.filterMap_cons_some ha] at h
      intro x hx
      rcases List.mem_cons.1 hx with rfl | hx
      · rw [ha]; rfl
      · exact ih (by simpa using h) x hx

theorem mem_body_of_partsNamed (nm : String) (body : List Call) (x : Call)
    (hx : x ∈ partsNamed nm (body ++ [Call.Close])) : x ∈ body := by
  unfold partsNamed at hx
  rw [List.mem_filter, List.mem_append] at hx
  rcases hx with ⟨hx | hx, hf⟩
  · exact hx
  · rw [List.mem_singleton] at hx
    subst hx
    simp [Call.fieldname] at hf

/-- The parts of the edit layout named `image`, `image[]` and `mask`. -/
theorem editLayout_image_parts (request : ImageEditRequest) :
    (∀ image, request.Image = [image] →
      partsNamed "image" (editLayout request) = [Call.CreateFormFileHeader "image" image] ∧
        partsNamed "image[]" (editLayout request) = []) ∧
    (2 ≤ request.Image.length →
      partsNamed "image[]" (editLayout request) =
          request.Image.map (Call.CreateFormFileHeader "image[]") ∧
        partsNamed "image" (editLayout request) = []) ∧
    (request.Mask = none → partsNamed "mask" (editLayout request) = []) := by
  have himage := partsNamed_editLayout "image" request (by decide) (by decide) (by decide)
    (by decide) (by decide) (by decide) (by decide) (by decide)
  have hplural := partsNamed_editLayout "image[]" request (by decide) (by decide) (by decide)
    (by decide) (by decide) (by decide) (by decide) (by decide)
  have hmask := partsNamed_editLayout "mask" request (by decide) (by decide) (by decide)
    (by decide) (by decide) (by decide) (by decide) (by decide)
  rw [partsNamed_mask "image" _ (by decide)] at himage
  rw [partsNamed_mask "image[]" _ (by decide)] at hplural
  refine ⟨?_, ?_, ?_⟩
  · intro image hI
    rw [himage, hplural, hI]
    exact ⟨by simp [imageParts, partsNamed, Call.fieldname],
      by simp [imageParts, partsNamed, Call.fieldname]⟩
  · intro h2
    rw [himage, hplural]
    match hI : request.Image, h2 with
    | x :: y :: t, _ =>
      exact ⟨by simpa [imageParts] using partsNamed_map_same "image[]" (x :: y :: t),
        by simpa [imageParts] using
          partsNamed_map_other "image" "image[]" (x :: y :: t) (by decide)⟩
  · intro hm
    have hparts : partsNamed "mask" (imageParts request.Image) = [] := by
      match request.Image with
      | [] => rfl
      | [x] => simp [imageParts, partsNamed, Call.fieldname]
      | x :: y :: t =>
        simpa [imageParts] using partsNamed_map_other "mask" "image[]" (x :: y :: t) (by decide)
    rw [hmask, hm, hparts]
    rfl

/-- What a successful part call for an upload descriptor hands to the writer. -/
theorem written_header_of_isSome (nm : String) (fh : FileHeader)
    (h : (Call.written (Call.CreateFormFileHeader nm fh)).isSome = true) :
    ∃ file, fh.Open = OpenResult.opened file ∧
      Call.written (Call.CreateFormFileHeader nm fh) =
        some { name := nm, filename := some fh.Filename, content := file.stream.chunks.flatten } := by
  cases hO : fh.Open with
  | failed err => simp [Call.written, hO] at h
  | opened file => exact ⟨file, rfl, by simp [Call.written, hO]⟩

theorem written_headers_names (nm : String) (l : List FileHeader)
    (h : ∀ fh ∈ l, (Call.written (Call.CreateFormFileHeader nm fh)).isSome = true) :
    ((l.map (Call.CreateFormFileHeader nm)).filterMap Call.written).map
        (fun p => (p.name, p.filename)) = l.map (fun fh => (nm, some fh.Filename)) := by
  induction l with
  | nil => rfl
  | cons x xs ih =>
    obtain ⟨file, _, hw⟩ := written_header_of_isSome nm x (h x (by simp))
    rw [List.map_cons, List.filterMap_cons_some hw, List.map_cons, List.map_cons,
      ih (fun fh hfh => h fh (List.mem_cons_of_mem _ hfh))]

/-- The body of a successful edit on a `DefaultFormBuilder` over a buffer. -/
theorem edit_body_facts (cb : Client (BuilderState Bytes)) (request : ImageEditRequest)
    (boundary : String) (hcb : cb.createFormBuilder = defaultFormBuilder bufferWriter)
    (hbody : cb.body = (fun st => st.sink))
    (hok : ∀ r ∈ builderResults (editTrace cb request (NewFormBuilder boundary [])), r = none) :
    builderCalls (editTrace cb request (NewFormBuilder boundary [])) = editLayout request ∧
    (∃ contentType, Event.newRequest "POST" (cb.fullURL "/images/edits" none)
        (wire boundary ((editLayout request).filterMap Call.written)) contentType ∈
      editTrace cb request (NewFormBuilder boundary [])) ∧
    (∀ nm, ∀ x ∈ partsNamed nm (editLayout request), (Call.written x).isSome = true) := by
  have hcalls : builderCalls (editTrace cb request (NewFormBuilder boundary [])) =
      editLayout request := by
    rw [editTrace_eq] at hok ⊢
    exact script_calls_of_ok cb (editLayout request) _ _ hok
  obtain ⟨body, hL, hnot⟩ := editLayout_eq_body request
  rw [editTrace_eq, script_results, hcb, hL] at hok
  have hall : allSucceed boundary body := hok
  have hparts : (body ++ [Call.Close]).filterMap Call.written = body.filterMap Call.written := by
    simp [List.filterMap_append, Call.written]
  have hwire := bodyAfter_eq_wire boundary body hnot hall
  refine ⟨hcalls, ?_, ?_⟩
  · have hreq := script_newRequest cb (editLayout request) (cb.fullURL "/images/edits" none)
      (NewFormBuilder boundary []) (by rw [hcb, hL]; exact hok)
    rw [← editTrace_eq, hbody] at hreq
    refine ⟨cb.createFormBuilder.FormDataContentType
      (runCalls cb.createFormBuilder (editLayout request) (NewFormBuilder boundary [])).2, ?_⟩
    rw [hL, hparts, ← hwire]
    unfold bodyAfter
    rw [← hcb, ← hL]
    exact hreq
  · intro nm x hx
    rw [hL] at hx
    exact all_isSome_of_filterMap_length Call.written body
      (written_isSome_of_ok body (NewFormBuilder boundary []) (Or.inl rfl) hnot hall) x
      (mem_body_of_partsNamed nm body x hx)

/-- C3, as stated, fails: it promises the part `image` for every request with exactly one
file, but on a sink without room the first builder call fails and `CreateEditImage` returns
before it reaches the image: one call was made, none of them names `image`, and the body
holds no byte. -/
theorem edit_image_part_missing_after_failure :
    oneImageRequest.Image.length = 1 ∧
    builderResults (editTrace limitedClient oneImageRequest (NewFormBuilder "B" ([], 0))) =
      [some ⟨"short write"⟩] ∧
    builderCalls (editTrace limitedClient oneImageRequest (NewFormBuilder "B" ([], 0))) =
      [Call.WriteField "model" "gpt-image-1"] ∧
    partsNamed "image"
      (builderCalls (editTrace limitedClient oneImageRequest (NewFormBuilder "B" ([], 0)))) = [] ∧
    limitedClient.body
      (CreateEditImage limitedClient oneImageRequest (NewFormBuilder "B" ([], 0))).2 = [] := by
  decide

/-- C3, amended. Singular versus plural image field of the edit operation, when every builder
call succeeds. Calls: one file is written by the single call for the part `image` and there is
no call for `image[]`; two or more files are written by one call for `image[]` each, in the
order of the request, and there is no call for `image`; without a mask there is no call for
`mask`. Body: on a `DefaultFormBuilder` over an in-memory buffer the body handed to the
transport is the wire format of the parts of these calls; for one file it has one part
`image` with the file's name and content and no part `image[]`; for two or more files it has
one part `image[]` per file, in order, and no part `image`; for two files and a nil mask it
has exactly two parts `image[]` and no part `image` or `mask`; and the reader of
`mime/multipart` reads these parts back when they satisfy the side conditions of the
format. -/
theorem edit_image_field_singular_plural {ω : Type} (c : Client ω) (request : ImageEditRequest)
    (w : ω) (hok : ∀ r ∈ builderResults (editTrace c request w), r = none) :
    (∀ image, request.Image = [image] →
      partsNamed "image" (builderCalls (editTrace c request w)) =
          [Call.CreateFormFileHeader "image" image] ∧
        partsNamed "image[]" (builderCalls (editTrace c request w)) = []) ∧
    (2 ≤ request.Image.length →
      partsNamed "image[]" (builderCalls (editTrace c request w)) =
          request.Image.map (Call.CreateFormFileHeader "image[]") ∧
        (partsNamed "image[]" (builderCalls (editTrace c request w))).length =
          request.Image.length ∧
        partsNamed "image" (builderCalls (editTrace c request w)) = []) ∧
    (request.Mask = none → partsNamed "mask" (builderCalls (editTrace c request w)) = []) ∧
    (∀ a b, request.Image = [a, b] → request.Mask = none →
      partsNamed "image[]" (builderCalls (editTrace c request w)) =
          [Call.CreateFormFileHeader "image[]" a, Call.CreateFormFileHeader "image[]" b] ∧
        partsNamed "image" (builderCalls (editTrace c request w)) = [] ∧
        partsNamed "mask" (builderCalls (editTrace c request w)) = []) ∧
    (∀ (cb : Client (BuilderState Bytes)) (boundary : String),
      cb.createFormBuilder = defaultFormBuilder bufferWriter →
      cb.body = (fun st => st.sink) →
      (∀ r ∈ builderResults (editTrace cb request (NewFormBuilder boundary [])), r = none) →
      (∃ contentType, Event.newRequest "POST" (cb.fullURL "/images/edits" none)
          (wire boundary ((builderCalls
            (editTrace cb request (NewFormBuilder boundary []))).filterMap Call.written))
          contentType ∈ editTrace cb request (NewFormBuilder boundary [])) ∧
      (∀ image, request.Image = [image] →
        ∃ file, image.Open = OpenResult.opened file ∧
          ((builderCalls (editTrace cb request (NewFormBuilder boundary []))).filterMap
              Call.written).filter (fun p => decide (p.name = "image")) =
            [{ name := "image", filename := some image.Filename,
               content := file.stream.chunks.flatten }] ∧
          ((builderCalls (editTrace cb request (NewFormBuilder boundary []))).filterMap
              Call.written).filter (fun p => decide (p.name = "image[]")) = []) ∧
      (2 ≤ request.Image.length →
        (((builderCalls (editTrace cb request (NewFormBuilder boundary []))).filterMap
            Call.written).filter (fun p => decide (p.name = "image[]"))).map
              (fun p => (p.name, p.filename)) =
          request.Image.map (fun fh => ("image[]", some fh.Filename)) ∧
        ((builderCalls (editTrace cb request (NewFormBuilder boundary []))).filterMap
            Call.written).filter (fun p => decide (p.name = "image")) = []) ∧
      (∀ a b, request.Image = [a, b] → request.Mask = none →
        ∃ fa fb, a.Open = OpenResult.opened fa ∧ b.Open = OpenResult.opened fb ∧
          ((builderCalls (editTrace cb request (NewFormBuilder boundary []))).filterMap
              Call.written).filter (fun p => decide (p.name = "image[]")) =
            [{ name := "image[]", filename := some a.Filename,
               content := fa.stream.chunks.flatten },
             { name := "image[]", filename := some b.Filename,
               content := fb.stream.chunks.flatten }] ∧
          ((builderCalls (editTrace cb request (NewFormBuilder boundary []))).filterMap
              Call.written).filter (fun p => decide (p.name = "image")) = [] ∧
          ((builderCalls (editTrace cb request (NewFormBuilder boundary []))).filterMap
              Call.written).filter (fun p => decide (p.name = "mask")) = []) ∧
      ('\r' ∉ boundary.data →
        (∀ p ∈ (builderCalls (editTrace cb request (NewFormBuilder boundary []))).filterMap
            Call.written, p.safe boundary) →
        readForm boundary (wire boundary ((builderCalls
            (editTrace cb request (NewFormBuilder boundary []))).filterMap Call.written)) =
          some (((builderCalls (editTrace cb request (NewFormBuilder boundary []))).filterMap
            Call.written).map WrittenPart.reported))) := by
  have hcalls : builderCalls (editTrace c request w) = editLayout request := by
    rw [editTrace_eq] at hok ⊢
    exact script_calls_of_ok c (editLayout request) _ w hok
  obtain ⟨hone, htwo, hnomask⟩ := editLayout_image_parts request
  refine ⟨?_, ?_, ?_, ?_, ?_⟩
  · rw [hcalls]; exact hone
  · rw [hcalls]
    intro h2
    refine ⟨(htwo h2).1, ?_, (htwo h2).2⟩
    rw [(htwo h2).1, List.length_map]
  · rw [hcalls]; exact hnomask
  · rw [hcalls]
    intro a b hI hm
    have h2 : 2 ≤ request.Image.length := by rw [hI]; simp
    refine ⟨?_, (htwo h2).2, hnomask hm⟩
    rw [(htwo h2).1, hI]
    rfl
  · intro cb boundary hcb hbody hokb
    obtain ⟨hcallsb, hreq, hsome⟩ := edit_body_facts cb request boundary hcb hbody hokb
    rw [hcallsb]
    refine ⟨hreq, ?_, ?_, ?_, ?_⟩
    · intro image hI
      obtain ⟨h1, h2⟩ := hone image hI
      obtain ⟨file, hfile, hw⟩ := written_header_of_isSome "image" image
        (hsome "image" _ (by rw [h1]; simp))
      refine ⟨file, hfile, ?_, ?_⟩
      · rw [filter_written, h1, List.filterMap_cons_some hw]
        rfl
      · rw [filter_written, h2]
        rfl
    · intro h2
      obtain ⟨h3, h4⟩ := htwo h2
      refine ⟨?_, ?_⟩
      · rw [filter_written, h3]
        apply written_headers_names
        intro fh hfh
        exact hsome "image[]" _ (by rw [h3]; exact List.mem_map_of_mem _ hfh)
      · rw [filter_written, h4]
        rfl
    · intro a b hI hm
      have h2 : 2 ≤ request.Image.length := by rw [hI]; simp
      obtain ⟨h3, h4⟩ := htwo h2
      rw [hI] at h3
      obtain ⟨fa, hfa, hwa⟩ := written_header_of_isSome "image[]" a
        (hsome "image[]" _ (by rw [h3]; simp))
      obtain ⟨fb, hfb, hwb⟩ := written_header_of_isSome "image[]" b
        (hsome "image[]" _ (by rw [h3]; simp))
      refine ⟨fa, fb, hfa, hfb, ?_, ?_, ?_⟩
      · rw [filter_written, h3, List.map_cons, List.map_cons, List.filterMap_cons_some hwa,
          List.filterMap_cons_some hwb]
        rfl
      · rw [filter_written, h4]
        rfl
      · rw [filter_written, hnomask hm]
        rfl
    · intro hb hsafe
      exact readForm_wire boundary _ hb hsafe

set_option maxRecDepth 1000000 in
/-- Two images and no mask on a `DefaultFormBuilder` over a buffer: two calls and two parts
`image[]`, none for `image` or `mask`. -/
theorem edit_image_field_singular_plural_witness :
    (∀ r ∈ builderResults (editTrace bufferClient twoImageRequest (NewFormBuilder "B" [])),
      r = none) ∧
    partsNamed "image[]"
        (builderCalls (editTrace bufferClient twoImageRequest (NewFormBuilder "B" []))) =
      [Call.CreateFormFileHeader "image[]" (upload "a.png" 1 "AA"),
        Call.CreateFormFileHeader "image[]" (upload "b.png" 2 "BB")] ∧
    partsNamed "image"
        (builderCalls (editTrace bufferClient twoImageRequest (NewFormBuilder "B" []))) = [] ∧
    partsNamed "mask"
        (builderCalls (editTrace bufferClient twoImageRequest (NewFormBuilder "B" []))) = [] ∧
    readForm "B" (wire "B" ((builderCalls
        (editTrace bufferClient twoImageRequest (NewFormBuilder "B" []))).filterMap
          Call.written)) =
      some [{ name := "model", filename := "", content := "gpt-image-1".data },
        { name := "image[]", filename := "a.png", content := "AA".data },
        { name := "image[]", filename := "b.png", content := "BB".data },
        { name := "prompt", filename := "", content := "a cat".data },
        { name := "n", filename := "", content := "2".data },
        { name := "size", filename := "", content := "1024x1024".data }] :=
  have h := edit_image_field_singular_plural bufferClient twoImageRequest
    (NewFormBuilder "B" []) (by decide)
  have g := h.2.2.2.1 (upload "a.png" 1 "AA") (upload "b.png" 2 "BB") rfl rfl
  ⟨by decide, g.1, g.2.1, g.2.2,
    ((h.2.2.2.2 bufferClient "B" rfl rfl (by decide)).2.2.2.2 (by decide) (by decide)).trans
      (by decide)⟩

/-- C4. The variation operation always writes its three scalar fields: when every builder
call made by `CreateVariImage` succeeds, the calls are exactly `CreateFormFile("image")`,
`WriteField("n", Itoa(N))`, `WriteField("size", Size)`,
`WriteField("response_format", ResponseFormat)` and `Close`, in this order and whatever the
values of `N`, `Size` and `ResponseFormat`; the text written for `n` reads back as the decimal
integer `N`. -/
theorem vari_always_writes_scalars {ω : Type} (c : Client ω) (request : ImageVariRequest)
    (w : ω) :
    ((∀ r ∈ builderResults (variTrace c request w), r = none) →
      builderCalls (variTrace c request w) =
        [Call.CreateFormFile "image" request.Image, Call.WriteField "n" (Itoa request.N),
          Call.WriteField "size" request.Size,
          Call.WriteField "response_format" request.ResponseFormat, Call.Close]) ∧
    parseDecimal (Itoa request.N) = some request.N := by
  refine ⟨?_, parseDecimal_Itoa request.N⟩
  intro hok
  rw [variTrace_eq] at hok ⊢
  exact script_calls_of_ok c (variLayout request) _ w hok

set_option maxRecDepth 100000 in
/-- The variation request with `N = 0` and empty `Size` and `ResponseFormat` still writes
`n`, `size` and `response_format`. -/
theorem vari_always_writes_scalars_witness :
    (∀ r ∈ builderResults (variTrace bufferClient zeroVariRequest (NewFormBuilder "B" [])),
      r = none) ∧
    builderCalls (variTrace bufferClient zeroVariRequest (NewFormBuilder "B" [])) =
      [Call.CreateFormFile "image" zeroVariRequest.Image, Call.WriteField "n" "0",
        Call.WriteField "size" "", Call.WriteField "response_format" "", Call.Close] :=
  ⟨by decide,
    (vari_always_writes_scalars bufferClient zeroVariRequest (NewFormBuilder "B" [])).1
      (by decide)⟩

/-- C5. Abort on the first builder failure: when the builder call number `i` (counted from 0)
of `CreateEditImage` or `CreateVariImage` returns the error `e` on the client's builder, the
operation returns exactly `e`, the log of collaborator calls ends with that call (no later
builder call, no request handed to the transport), `Close` is not called unless it is the
failing call itself, and the calls made are the first `i + 1` calls of the sequence made when
nothing fails. -/
theorem abort_on_first_builder_failure {ω : Type} (c : Client ω) (w : ω) (i : Nat)
    (e : GoError) :
    (∀ request : ImageEditRequest,
      (runCalls c.createFormBuilder (editLayout request) w).1[i]? = some (some e) →
        (builderResults (editTrace c request w))[i]? = some (some e) ∧
        (CreateEditImage c request w).1 = Except.error e ∧
        (CreateEditImage c.recording request (w, [])).1 = Except.error e ∧
        (editTrace c request w).length = i + 1 ∧
        (∀ ev ∈ editTrace c request w, ev.isTransport = false) ∧
        builderCalls (editTrace c request w) = (editLayout request).take (i + 1) ∧
        ((builderCalls (editTrace c request w))[i]? ≠ some Call.Close →
          Call.Close ∉ builderCalls (editTrace c request w)) ∧
        (∀ (ω' : Type) (c' : Client ω') (w' : ω'),
          (∀ r ∈ builderResults (editTrace c' request w'), r = none) →
            (builderCalls (editTrace c request w)).take i =
              (builderCalls (editTrace c' request w')).take i)) ∧
    (∀ request : ImageVariRequest,
      (runCalls c.createFormBuilder (variLayout request) w).1[i]? = some (some e) →
        (builderResults (variTrace c request w))[i]? = some (some e) ∧
        (CreateVariImage c request w).1 = Except.error e ∧
        (CreateVariImage c.recording request (w, [])).1 = Except.error e ∧
        (variTrace c request w).length = i + 1 ∧
        (∀ ev ∈ variTrace c request w, ev.isTransport = false) ∧
        builderCalls (variTrace c request w) = (variLayout request).take (i + 1) ∧
        ((builderCalls (variTrace c request w))[i]? ≠ some Call.Close →
          Call.Close ∉ builderCalls (variTrace c request w)) ∧
        (∀ (ω' : Type) (c' : Client ω') (w' : ω'),
          (∀ r ∈ builderResults (variTrace c' request w'), r = none) →
            (builderCalls (variTrace c request w)).take i =
              (builderCalls (variTrace c' request w')).take i)) := by
  constructor
  · intro request hrun
    obtain ⟨body, hL, hbody⟩ := editLayout_eq_body request
    rw [editTrace_eq]
    have hi : (builderResults ((exec c.recording.createFormBuilder (editLayout request) >>=
        fun _ => transport c.recording (c.fullURL "/images/edits" none)) (w, [])).2.2)[i]? =
        some (some e) := by
      rw [script_results]; exact hrun
    obtain ⟨h1, h2, h3, h4, h5, h6⟩ := script_abort_facts c (editLayout request) body
      (c.fullURL "/images/edits" none) w i e hL hbody hi
    refine ⟨hi, ?_, ?_, h3, h4, h5, h6, ?_⟩
    · rw [CreateEditImage_eq]; exact h1
    · rw [CreateEditImage_eq]; exact h2
    · intro ω' c' w' hok
      rw [editTrace_eq] at hok ⊢
      rw [h5, script_calls_of_ok c' (editLayout request) _ w' hok, List.take_take]
      simp
  · intro request hrun
    obtain ⟨body, hL, hbody⟩ := variLayout_eq_body request
    rw [variTrace_eq]
    have hi : (builderResults ((exec c.recording.createFormBuilder (variLayout request) >>=
        fun _ => transport c.recording (c.fullURL "/images/variations" (some request.Model)))
          (w, [])).2.2)[i]? = some (some e) := by
      rw [script_results]; exact hrun
    obtain ⟨h1, h2, h3, h4, h5, h6⟩ := script_abort_facts c (variLayout request) body
      (c.fullURL "/images/variations" (some request.Model)) w i e hL hbody hi
    refine ⟨hi, ?_, ?_, h3, h4, h5, h6, ?_⟩
    · rw [CreateVariImage_eq]; exact h1
    · rw [CreateVariImage_eq]; exact h2
    · intro ω' c' w' hok
      rw [variTrace_eq] at hok ⊢
      rw [h5, script_calls_of_ok c' (variLayout request) _ w' hok, List.take_take]
      simp

set_option maxRecDepth 1000000 in
/-- Both operations on a sink with limited room. With room for 200 bytes the third call of the
two-image edit fails; with room for 150 bytes the second call of the variation fails. Each
operation returns that error, stops there and never calls `Close`. -/
theorem abort_on_first_builder_failure_witness :
    ((runCalls limitedClient.createFormBuilder (editLayout twoImageRequest)
        (NewFormBuilder "B" ([], 200))).1[2]? = some (some ⟨"short write"⟩) ∧
      (CreateEditImage limitedClient twoImageRequest (NewFormBuilder "B" ([], 200))).1 =
        Except.error ⟨"short write"⟩ ∧
      (editTrace limitedClient twoImageRequest (NewFormBuilder "B" ([], 200))).length = 3 ∧
      Call.Close ∉ builderCalls (editTrace limitedClient twoImageRequest
        (NewFormBuilder "B" ([], 200)))) ∧
    ((runCalls limitedClient.createFormBuilder (variLayout zeroVariRequest)
        (NewFormBuilder "B" ([], 150))).1[1]? = some (some ⟨"short write"⟩) ∧
      (CreateVariImage limitedClient zeroVariRequest (NewFormBuilder "B" ([], 150))).1 =
        Except.error ⟨"short write"⟩ ∧
      (variTrace limitedClient zeroVariRequest (NewFormBuilder "B" ([], 150))).length = 2 ∧
      builderCalls (variTrace limitedClient zeroVariRequest (NewFormBuilder "B" ([], 150))) =
        [Call.CreateFormFile "image" zeroVariRequest.Image, Call.WriteField "n" "0"] ∧
      Call.Close ∉ builderCalls (variTrace limitedClient zeroVariRequest
        (NewFormBuilder "B" ([], 150)))) :=
  have h := (abort_on_first_builder_failure limitedClient (NewFormBuilder "B" ([], 200)) 2
    ⟨"short write"⟩).1 twoImageRequest (by decide)
  have g := (abort_on_first_builder_failure limitedClient (NewFormBuilder "B" ([], 150)) 1
    ⟨"short write"⟩).2 zeroVariRequest (by decide)
  ⟨⟨by decide, h.2.1, h.2.2.2.1, h.2.2.2.2.2.2.1 (by decide)⟩,
    ⟨by decide, g.2.1, g.2.2.2.1, by decide, g.2.2.2.2.2.2.1 (by decide)⟩⟩
theorem close_buffer_ok (st : BuilderState Bytes)
    (hclose : (DefaultFormBuilder.Close bufferWriter st).1 = none) :
    (DefaultFormBuilder.Close bufferWriter st).2 =
      { st with
        sink := st.sink ++ ("\r\n--".data ++ st.writer.boundary.data ++ "--\r\n".data)
        writer := { st.writer with lastpart := none } } := by
  unfold DefaultFormBuilder.Close writerClose at hclose ⊢
  cases st with
  | mk wr sk hd =>
    cases wr with
    | mk bd lp =>
      cases lp with
      | none => rfl
      | some p =>
        cases hp : p.we with
        | none => simp only [hp]; rfl
        | some e => simp [hp] at hclose

/-- C6. Evaluation of the code on an upload descriptor whose `Filename` is empty. The file
handle entry point rejects an empty name before touching the builder, but
`CreateFormFileHeader` performs no such check: on a fresh builder over an in-memory buffer it
returns `nil` and writes a whole part with `filename=""`. -/
theorem createFormFileHeader_writes_empty_filename :
    (∀ {σ : Type} (w : IoWriter σ) (fieldname : String) (stream : IoReader)
        (st : BuilderState σ),
      DefaultFormBuilder.CreateFormFile w fieldname { name := "", stream := stream } st =
        (some ⟨"filename cannot be empty"⟩, st)) ∧
    (DefaultFormBuilder.CreateFormFileHeader bufferWriter "image" (upload "" 1 "AA")
        (NewFormBuilder "B" [])).1 = none ∧
    (DefaultFormBuilder.CreateFormFileHeader bufferWriter "image" (upload "" 1 "AA")
        (NewFormBuilder "B" [])).2.sink =
      ("--B\r\nContent-Disposition: form-data; name=\"image\"; filename=\"\"\r\n" ++
        "Content-Type: application/octet-stream\r\n\r\nAA").data :=
  ⟨fun _ _ _ _ => rfl, by decide, by decide⟩

/-- C7. Evaluation of the code on a stream with the empty string as filename:
`path.Base("")` is `.`, so the check `filename == ""` of `createFormFile` never fires from
`CreateFormFileReader`; on a fresh builder over an in-memory buffer the call returns `nil`
and writes a whole part with `filename="."`. -/
theorem createFormFileReader_accepts_empty_filename :
    Base "" = "." ∧
    (∀ filename : String, Base filename ≠ "") ∧
    (DefaultFormBuilder.CreateFormFileReader bufferWriter "file"
        { chunks := ["test".data], err := none } "" (NewFormBuilder "B" [])).1 = none ∧
    (DefaultFormBuilder.CreateFormFileReader bufferWriter "file"
        { chunks := ["test".data], err := none } "" (NewFormBuilder "B" [])).2.sink =
      ("--B\r\nContent-Disposition: form-data; name=\"file\"; filename=\".\"\r\n" ++
        "Content-Type: application/octet-stream\r\n\r\ntest").data :=
  ⟨rfl, Base_ne_empty, by decide, by decide⟩

/-- C9, as stated, fails: on a fresh builder over an in-memory buffer, `WriteField` after
`Close` returns `nil` and appends a new part after the closing boundary. -/
theorem write_after_close_is_not_rejected :
    (DefaultFormBuilder.WriteField bufferWriter "a" "b"
        (DefaultFormBuilder.Close bufferWriter (NewFormBuilder "B" [])).2).1 = none ∧
    (DefaultFormBuilder.Close bufferWriter (NewFormBuilder "B" [])).2.sink = "\r\n--B--\r\n".data ∧
    (DefaultFormBuilder.WriteField bufferWriter "a" "b"
        (DefaultFormBuilder.Close bufferWriter (NewFormBuilder "B" [])).2).2.sink =
      "\r\n--B--\r\n--B\r\nContent-Disposition: form-data; name=\"a\"\r\n\r\nb".data := by
  decide

/-- C9, amended. The builder keeps no record of `Close`. After a `Close` that succeeded on an
in-memory buffer the writer has no current part, and a later write is treated like the first
write of a builder: `WriteField` returns `nil`; a file-part call with a non-empty filename
whose source opens returns what reading the source returns, `nil` when it reads to its end;
and each of these calls appends an opening boundary line, the part headers and the content
after the closing boundary. -/
theorem writes_after_close_are_accepted (st : BuilderState Bytes)
    (hclose : (DefaultFormBuilder.Close bufferWriter st).1 = none) :
    (DefaultFormBuilder.Close bufferWriter st).2.sink =
      st.sink ++ ("\r\n--".data ++ st.writer.boundary.data ++ "--\r\n".data) ∧
    (DefaultFormBuilder.Close bufferWriter st).2.writer.lastpart = none ∧
    (∀ fieldname value,
      (DefaultFormBuilder.WriteField bufferWriter fieldname value
          (DefaultFormBuilder.Close bufferWriter st).2).1 = none ∧
      (DefaultFormBuilder.WriteField bufferWriter fieldname value
          (DefaultFormBuilder.Close bufferWriter st).2).2.sink =
        (DefaultFormBuilder.Close bufferWriter st).2.sink ++
          ("--".data ++ st.writer.boundary.data ++ "\r\n".data ++ fieldHeader fieldname ++
            "\r\n".data ++ value.data)) ∧
    (∀ fieldname r filename, filename ≠ "" →
      (DefaultFormBuilder.CreateFormFileReader bufferWriter fieldname r filename
          (DefaultFormBuilder.Close bufferWriter st).2).1 = r.err ∧
      (DefaultFormBuilder.CreateFormFileReader bufferWriter fieldname r filename
          (DefaultFormBuilder.Close bufferWriter st).2).2.sink =
        (DefaultFormBuilder.Close bufferWriter st).2.sink ++
          ("--".data ++ st.writer.boundary.data ++ "\r\n".data ++
            fileHeader fieldname (Base filename) ++ "\r\n".data ++ r.chunks.flatten)) ∧
    (∀ fieldname (file : OsFile), file.name ≠ "" →
      (DefaultFormBuilder.CreateFormFile bufferWriter fieldname file
          (DefaultFormBuilder.Close bufferWriter st).2).1 = file.stream.err ∧
      (DefaultFormBuilder.CreateFormFile bufferWriter fieldname file
          (DefaultFormBuilder.Close bufferWriter st).2).2.sink =
        (DefaultFormBuilder.Close bufferWriter st).2.sink ++
          ("--".data ++ st.writer.boundary.data ++ "\r\n".data ++
            fileHeader fieldname file.name ++ "\r\n".data ++ file.stream.chunks.flatten)) ∧
    (∀ fieldname filename (file : MultipartFile), filename ≠ "" →
      (DefaultFormBuilder.CreateFormFileHeader bufferWriter fieldname
          { Filename := filename, Open := OpenResult.opened file }
          (DefaultFormBuilder.Close bufferWriter st).2).1 = file.stream.err ∧
      (DefaultFormBuilder.CreateFormFileHeader bufferWriter fieldname
          { Filename := filename, Open := OpenResult.opened file }
          (DefaultFormBuilder.Close bufferWriter st).2).2.sink =
        (DefaultFormBuilder.Close bufferWriter st).2.sink ++
          ("--".data ++ st.writer.boundary.data ++ "\r\n".data ++
            fileHeader fieldname filename ++ "\r\n".data ++ file.stream.chunks.flatten)) := by
  rw [close_buffer_ok st hclose]
  refine ⟨rfl, rfl, ?_, ?_, ?_, ?_⟩
  · intro fieldname value
    rw [writeField_buffer _ _ _ (Or.inl rfl)]
    exact ⟨rfl, rfl⟩
  · intro fieldname r filename _
    unfold DefaultFormBuilder.CreateFormFileReader
    rw [createFormFile_buffer _ _ _ _ (Base_ne_empty filename) (Or.inl rfl)]
    exact ⟨rfl, rfl⟩
  · intro fieldname file hname
    unfold DefaultFormBuilder.CreateFormFile
    rw [createFormFile_buffer _ _ _ _ hname (Or.inl rfl)]
    exact ⟨rfl, rfl⟩
  · intro fieldname filename file _
    rw [createFormFileHeader_buffer _ _ _ _ (Or.inl rfl)]
    exact ⟨rfl, rfl⟩

set_option maxRecDepth 100000 in
/-- A field and a stream written after `Close` on a builder that already wrote one field are
accepted and land behind the closing boundary. -/
theorem writes_after_close_are_accepted_witness :
    (DefaultFormBuilder.Close bufferWriter
        (DefaultFormBuilder.WriteField bufferWriter "model" "m" (NewFormBuilder "B" [])).2).1 =
      none ∧
    (DefaultFormBuilder.WriteField bufferWriter "late" "x"
        (DefaultFormBuilder.Close bufferWriter
          (DefaultFormBuilder.WriteField bufferWriter "model" "m"
            (NewFormBuilder "B" [])).2).2).1 = none ∧
    (DefaultFormBuilder.CreateFormFileReader bufferWriter "file"
        { chunks := ["test".data], err := none } "c.png"
        (DefaultFormBuilder.Close bufferWriter
          (DefaultFormBuilder.WriteField bufferWriter "model" "m"
            (NewFormBuilder "B" [])).2).2).1 = none :=
  have h := writes_after_close_are_accepted
    (DefaultFormBuilder.WriteField bufferWriter "model" "m" (NewFormBuilder "B" [])).2
    (by decide)
  ⟨by decide, (h.2.2.1 "late" "x").1,
    (h.2.2.2.1 "file" { chunks := ["test".data], err := none } "c.png" (by decide)).1⟩

/-- C10, as stated, fails: for the supplied name `/` the part is written under the filename
`/`, which contains the directory separator. -/
theorem createFormFileReader_filename_may_be_slash :
    Base "/" = "/" ∧ '/' ∈ (Base "/").data ∧
    (DefaultFormBuilder.CreateFormFileReader bufferWriter "file"
        { chunks := ["test".data], err := none } "/" (NewFormBuilder "B" [])).2.sink =
      ("--B\r\nContent-Disposition: form-data; name=\"file\"; filename=\"/\"\r\n" ++
        "Content-Type: application/octet-stream\r\n\r\ntest").data := by
  decide

/-- C10, amended. For a non-empty supplied name, `CreateFormFileReader` writes the part under
`path.Base` of that name, which is never empty: `/` for a name made of slashes only, and
otherwise the last non-empty slash-separated component (trailing slashes are dropped first),
which contains no `/`; for example `a/b/c.png` is written as `c.png`. -/
theorem createFormFileReader_filename_is_path_base {σ : Type} (w : IoWriter σ)
    (fieldname : String) (r : IoReader) (filename : String) (st : BuilderState σ)
    (hne : filename ≠ "") :
    DefaultFormBuilder.CreateFormFileReader w fieldname r filename st =
      createFormFile w fieldname r (Base filename) st ∧
    (∀ boundary : String,
      (DefaultFormBuilder.CreateFormFileReader bufferWriter fieldname r filename
          (NewFormBuilder boundary [])).2.sink =
        "--".data ++ boundary.data ++ "\r\n".data ++ fileHeader fieldname (Base filename) ++
          "\r\n".data ++ r.chunks.flatten) ∧
    Base filename ≠ "" ∧
    (((∃ k, filename.data = List.replicate k '/') ∧ Base filename = "/") ∨
      (∃ pre k,
        filename.data = pre ++ (Base filename).data ++ List.replicate k '/' ∧
        (pre = [] ∨ pre.getLast? = some '/') ∧ '/' ∉ (Base filename).data ∧
        (Base filename).data ≠ [])) ∧
    Base "a/b/c.png" = "c.png" := by
  refine ⟨rfl, ?_, Base_ne_empty filename, ?_, by decide⟩
  · intro boundary
    unfold DefaultFormBuilder.CreateFormFileReader
    rw [createFormFile_buffer _ _ _ _ (Base_ne_empty filename) (Or.inl rfl)]
    simp [NewFormBuilder, separator]
  · obtain ⟨k, hk⟩ := stripTrailingSlashes_split filename.data
    rcases Base_spec filename with h | ⟨_, h2, h3⟩ | ⟨_, pre, h2, h3, h4, h5⟩
    · exact absurd h.1 hne
    · left
      refine ⟨⟨k, ?_⟩, h3⟩
      rw [h2] at hk
      simpa using hk
    · right
      refine ⟨pre, k, ?_, h3, h4, h5⟩
      rw [h2] at hk
      exact hk

set_option maxRecDepth 100000 in
/-- The stream name `a/b/c.png` is written as `c.png`. -/
theorem createFormFileReader_filename_is_path_base_witness :
    "a/b/c.png" ≠ "" ∧ Base "a/b/c.png" = "c.png" ∧
    (DefaultFormBuilder.CreateFormFileReader bufferWriter "file"
        { chunks := ["test".data], err := none } "a/b/c.png" (NewFormBuilder "B" [])).2.sink =
      "--".data ++ "B".data ++ "\r\n".data ++ fileHeader "file" (Base "a/b/c.png") ++
        "\r\n".data ++ ["test".data].flatten :=
  ⟨by decide, by decide,
    (createFormFileReader_filename_is_path_base bufferWriter "file"
      { chunks := ["test".data], err := none } "a/b/c.png" (NewFormBuilder "B" [])
      (by decide)).2.1 "B"⟩
/-! ## Round trip -/

set_option maxRecDepth 1000000 in
/-- C1, as stated, fails in three ways, all with boundary `B` and calls that succeed. A value
that embeds a delimiter leaves the same bytes in the sink as two plain fields, so no reader
whatever returns the parts written in both cases, and the reader of `mime/multipart` returns
two parts for the one call made. A file handle named `/tmp/cat.png` is written under that name
but read back as `cat.png`. A field name with a line feed is read back as `a%0Ab`, and one
with a control character makes the reader fail. -/
theorem round_trip_fails_as_stated :
    (allSucceed "B" oneFieldCalls ∧ allSucceed "B" twoFieldCalls ∧
      bodyAfter "B" oneFieldCalls = bodyAfter "B" twoFieldCalls ∧
      readForm "B" (bodyAfter "B" oneFieldCalls) =
        some [{ name := "a", filename := "", content := "x".data },
          { name := "b", filename := "", content := "y".data }] ∧
      readForm "B" (bodyAfter "B" oneFieldCalls) ≠
        some ((oneFieldCalls.filterMap Call.written).map WrittenPart.asWritten) ∧
      ¬ ∃ parse : String → Bytes → Option (List ReadPart),
        ∀ calls, Call.Close ∉ calls → allSucceed "B" calls →
          parse "B" (bodyAfter "B" calls) =
            some ((calls.filterMap Call.written).map WrittenPart.asWritten)) ∧
    (allSucceed "B" pathNamedFileCalls ∧
      (pathNamedFileCalls.filterMap Call.written).map WrittenPart.asWritten =
        [{ name := "g", filename := "/tmp/cat.png", content := "PNG".data }] ∧
      readForm "B" (bodyAfter "B" pathNamedFileCalls) =
        some [{ name := "g", filename := "cat.png", content := "PNG".data }]) ∧
    (allSucceed "B" lineFeedNameCalls ∧
      readForm "B" (bodyAfter "B" lineFeedNameCalls) =
        some [{ name := "a%0Ab", filename := "", content := "x".data }] ∧
      allSucceed "B" controlNameCalls ∧
      readForm "B" (bodyAfter "B" controlNameCalls) = none) := by
  refine ⟨⟨by decide, by decide, by decide, by decide, by decide, ?_⟩, by decide, by decide⟩
  rintro ⟨parse, h⟩
  have h1 := h oneFieldCalls (by decide) (by decide)
  have h2 := h twoFieldCalls (by decide) (by decide)
  have hbody : bodyAfter "B" oneFieldCalls = bodyAfter "B" twoFieldCalls := by decide
  rw [hbody, h2] at h1
  revert h1
  decide

/-- C1, amended. Round trip of the form builder under the side conditions of the format: for
every boundary without a carriage return and every sequence of `WriteField` and file-part
calls that all succeed, followed by `Close`, on a fresh builder over an in-memory buffer, if
every field name and filename is made of bytes allowed in a header line and no value or
content holds a boundary (the dash-boundary at its very beginning, or a delimiter followed by
a space, a tab, a line break, two dashes or the end of the content), then the reader of
`mime/multipart` returns exactly one part per call, in call order, with the field name, the
value or content, and for file parts the last path element of the filename handed to the
multipart writer. -/
theorem round_trip_of_safe_parts (boundary : String) (calls : List Call)
    (hb : '\r' ∉ boundary.data) (hclose : Call.Close ∉ calls)
    (hok : allSucceed boundary calls)
    (hsafe : ∀ p ∈ calls.filterMap Call.written, p.safe boundary) :
    readForm boundary (bodyAfter boundary calls) =
      some ((calls.filterMap Call.written).map WrittenPart.reported) ∧
    (calls.filterMap Call.written).length = calls.length := by
  refine ⟨?_, written_isSome_of_ok calls (NewFormBuilder boundary []) (Or.inl rfl) hclose hok⟩
  rw [bodyAfter_eq_wire boundary calls hclose hok]
  exact readForm_wire boundary _ hb hsafe

set_option maxRecDepth 1000000 in
/-- Five calls of all four kinds, with a quote and a backslash in a name and a directory in
two filenames, read back part by part. -/
theorem round_trip_of_safe_parts_witness :
    readForm "B" (bodyAfter "B" mixedCalls) =
      some [{ name := "a\"q\\", filename := "", content := "x".data },
        { name := "f", filename := "e.png", content := "hello".data },
        { name := "g", filename := "cat.png", content := "PNG".data },
        { name := "image", filename := "a.png", content := "AA".data },
        { name := "b", filename := "", content := [] }] ∧
    (mixedCalls.filterMap Call.written).length = 5 :=
  round_trip_of_safe_parts "B" mixedCalls (by decide) (by decide) (by decide) (by decide)

end GoOpenAI
